import Mathlib

/-!
Verification development for the feedback-sheet batch backend.

The embedding models, from `src/main.py`, `src/backend/google_create.py` and
`src/google_download.py`:

* the remote Drive store as an explicit list of files (`DriveState`), with the
  `files().list` lookups (`pageSize=1`, first match wins) as `head?` of a
  filter in file order, and `files().create` / `files().copy` as appends with
  a fresh id (`nextId`);
* the find/create helpers `_find_in_folder`, `_find_or_create_folder`
  (from `main.py`) and `get_or_create_subfolder` (from
  `backend/google_create.py`, whose query additionally constrains the
  mimeType to the folder type);
* the three background workers `_run_generate_individuals_task`,
  `_run_generate_groups_task`, `_run_generate_mixed_task` as pure functions
  from an initial drive state, roster and cancellation threshold to the final
  drive state, the ordered list of artifact-creating remote calls, the result
  records, the published progress updates and the final task status;
* the in-memory task registry and `_update_progress`;
* the parsing helpers `_normalize_group_label` and `_parse_groups_members`
  (pandas cell values become the `PyVal` type; Python floats are carried as
  exact rationals, which is faithful on the short decimal literals the claims
  are about);
* the export walker `walk` and `download_google_sheet_pdf` from
  `src/google_download.py`.

The cooperative cancellation flag (a `threading.Event` set at most once and
polled at iteration boundaries) is modelled by the index of the first poll
that observes the flag set: `cancel = some n` means every poll with index
`< n` reads false and every poll with index `≥ n` reads true, which is
exactly the observable behaviour of a monotone one-shot flag.
-/

namespace GAFeedback

/-- Drive mimeType of a folder (`FOLDER_MT` in the source). -/
def FOLDER_MT : String := "application/vnd.google-apps.folder"

/-- Drive mimeType of a native Google Sheet (`SHEET_MT` in the source). -/
def SHEET_MT : String := "application/vnd.google-apps.spreadsheet"

/-- One remote file as the workers see it: id, name, mimeType and the single
parent folder id.  `webViewLink` is identified with the file id. -/
structure DriveFile where
  fid : Nat
  name : String
  mimeType : String
  parent : Nat
  trashed : Bool
deriving DecidableEq, Repr

/-- The remote store: the files in listing order, plus the next fresh id
handed out by a create/copy call. -/
structure DriveState where
  files : List DriveFile
  nextId : Nat
deriving DecidableEq, Repr

/-- Artifact-creating remote calls issued by a worker
(`files().create` with a folder body, and `files().copy`). -/
inductive RemoteCall where
  | createFolder (parent : Nat) (name : String)
  | copySheet (template : String) (name : String) (parent : Nat)
deriving DecidableEq, Repr

/-- The query filter of `_find_in_folder`:
`name = '{name}' and '{parent}' in parents and trashed = false`. -/
def matchesName (parent : Nat) (name : String) (f : DriveFile) : Bool :=
  f.name == name && f.parent == parent && !f.trashed

/-- The query filter of `get_or_create_subfolder`, which additionally
constrains `mimeType = FOLDER_MT`. -/
def matchesFolder (parent : Nat) (name : String) (f : DriveFile) : Bool :=
  f.name == name && f.mimeType == FOLDER_MT && f.parent == parent && !f.trashed

/-- `_find_in_folder` (main.py): list with `pageSize=1` and return the first
match, or `None`. -/
def findInFolder (s : DriveState) (parent : Nat) (name : String) :
    Option DriveFile :=
  (s.files.filter (matchesName parent name)).head?

/-- The folder-typed lookup inside `get_or_create_subfolder`
(backend/google_create.py). -/
def findFolderInFolder (s : DriveState) (parent : Nat) (name : String) :
    Option DriveFile :=
  (s.files.filter (matchesFolder parent name)).head?

/-- `drive.files().create` with a folder body: a fresh folder appended to the
listing. -/
def createFolderCall (s : DriveState) (parent : Nat) (name : String) :
    DriveFile × DriveState :=
  let f : DriveFile := ⟨s.nextId, name, FOLDER_MT, parent, false⟩
  (f, ⟨s.files ++ [f], s.nextId + 1⟩)

/-- `copy_as_google_sheet` (backend/google_create.py): `files().copy` with
`mimeType = SHEET_MT`, so the copy is a fresh native sheet in `parent`. -/
def copySheetCall (s : DriveState) (parent : Nat) (name : String) :
    DriveFile × DriveState :=
  let f : DriveFile := ⟨s.nextId, name, SHEET_MT, parent, false⟩
  (f, ⟨s.files ++ [f], s.nextId + 1⟩)

/-- `_find_or_create_folder` (main.py): name-only lookup; reuse the first
match only when it is folder-typed, otherwise create a brand-new folder.
Also returns the artifact-creating calls it issued. -/
def findOrCreateFolder (s : DriveState) (parent : Nat) (name : String) :
    DriveFile × DriveState × List RemoteCall :=
  match findInFolder s parent name with
  | some f =>
      if f.mimeType = FOLDER_MT then (f, s, [])
      else
        let (g, s') := createFolderCall s parent name
        (g, s', [RemoteCall.createFolder parent name])
  | none =>
      let (g, s') := createFolderCall s parent name
      (g, s', [RemoteCall.createFolder parent name])

/-- `get_or_create_subfolder` (backend/google_create.py): folder-typed lookup;
create only when no folder of that name exists under the parent. -/
def getOrCreateSubfolder (s : DriveState) (parent : Nat) (name : String) :
    DriveFile × DriveState × List RemoteCall :=
  match findFolderInFolder s parent name with
  | some f => (f, s, [])
  | none =>
      let (g, s') := createFolderCall s parent name
      (g, s', [RemoteCall.createFolder parent name])

/-! Pandas cell values and the parsing helpers of `main.py`. -/

/-- A pandas cell value as received by `_normalize_group_label` and
`_parse_groups_members`: NaN, a Python int, a Python float (carried as the
exact rational it denotes; faithful for the short decimal literals at issue,
while huge literals that a binary float would round are outside the model),
or a string. -/
inductive PyVal where
  | vNaN
  | vInt (n : ℤ)
  | vFloat (q : ℚ)
  | vStr (s : String)
deriving DecidableEq

/-- Python whitespace for `str.strip()`. -/
def isPyWs (c : Char) : Bool :=
  c == ' ' || c == '\t' || c == '\n' || c == '\x0d' || c == '\x0b' || c == '\x0c'

/-- Python `str.strip()`: drop leading and trailing whitespace. -/
def pyStrip (s : String) : String :=
  String.mk (((s.toList.dropWhile isPyWs).reverse.dropWhile isPyWs).reverse)

/-- Numeric value of a digit string (most significant first). -/
def digitsVal (cs : List Char) : Nat :=
  cs.foldl (fun acc c => acc * 10 + (c.toNat - 48)) 0

/-- CPython `float(s)` on plain decimal literals: optional sign, digits with
an optional single decimal point, at least one digit overall, nothing else;
the value `±(ip.fp)` is returned as the exact rational
`±(ip·10^k + fp) / 10^k`.  Exponent forms, underscores and the words
inf/nan are not modelled (for the claims at hand the inf/nan forms
normalise to the unchanged string either way, as non-integer floats do). -/
def pyFloatOfString (s : String) : Option ℚ :=
  let cs := s.toList
  let (neg, ds) := match cs with
    | '+' :: rest => (false, rest)
    | '-' :: rest => (true, rest)
    | rest => (false, rest)
  let intPart := ds.takeWhile Char.isDigit
  let rest := ds.dropWhile Char.isDigit
  let mk (ip fp : Nat) (k : Nat) : ℚ :=
    let n : ℤ := (ip * 10 ^ k + fp : Nat)
    mkRat (if neg then -n else n) (10 ^ k)
  match rest with
  | [] => if intPart.isEmpty then none else some (mk (digitsVal intPart) 0 0)
  | '.' :: rest2 =>
    let fracPart := rest2.takeWhile Char.isDigit
    let rest3 := rest2.dropWhile Char.isDigit
    if rest3.isEmpty && !(intPart.isEmpty && fracPart.isEmpty) then
      some (mk (digitsVal intPart) (digitsVal fracPart) fracPart.length)
    else none
  | _ => none

/-- Remove every trailing occurrence of `c` (Python `str.rstrip` with a
one-character argument). -/
def rstripChar (c : Char) (s : String) : String :=
  String.mk (s.toList.reverse.dropWhile (fun x => x == c)).reverse

/-- Bounded upward search for the least `k ≥ start` with `10^k` divisible
by `den`. -/
def decExpAux (den : Nat) : Nat → Nat → Option Nat
  | 0, _ => none
  | fuel + 1, k => if 10 ^ k % den = 0 then some k else decExpAux den fuel (k + 1)

/-- Least exponent `k` such that `q · 10^k` is an integer, searched up to
the width of any IEEE double's exact decimal expansion. -/
def decExp (q : ℚ) : Option Nat :=
  decExpAux q.den 1101 0

/-- Decimal rendering of `q` with exactly `k` fractional digits (`q.den`
dividing `10^k`). -/
def rendDecimal (q : ℚ) (k : Nat) : String :=
  let sign := if q.num < 0 then "-" else ""
  let m : Nat := q.num.natAbs * (10 ^ k / q.den)
  let ip := m / 10 ^ k
  let fp := m % 10 ^ k
  if k = 0 then sign ++ toString ip ++ ".0"
  else
    let d := toString fp
    sign ++ toString ip ++ "." ++
      String.mk (List.replicate (k - d.length) '0') ++ d

/-- CPython `str` of a float value, modelled for values whose shortest repr
is their exact decimal expansion (every value the claims mention). -/
def pyFloatStr (q : ℚ) : String :=
  match decExp q with
  | some k => rendDecimal q k
  | none => ""

/-- `_normalize_group_label` (identical copies in `main.py` and
`backend/google_create.py`): NaN becomes `""`; ints print as ints; an
integer-valued float prints as `str(int(val))`, a non-integer float as
`str(val).rstrip("0").rstrip(".")`; a string is stripped, and replaced by
`str(int(f))` only when it parses as an integer-valued float, otherwise it
is returned (stripped) unchanged. -/
def normalizeGroupLabel : PyVal → String
  | .vNaN => ""
  | .vInt n => toString n
  | .vFloat q =>
      if q.den = 1 then toString q.num
      else rstripChar '.' (rstripChar '0' (pyFloatStr q))
  | .vStr s =>
      let t := pyStrip s
      match pyFloatOfString t with
      | some q => if q.den = 1 then toString q.num else t
      | none => t

/-- CPython `str()` of a cell value (`str(row.get(members_col))`). -/
def pyStr : PyVal → String
  | .vNaN => "nan"
  | .vInt n => toString n
  | .vFloat q => if q.den = 1 then toString q.num ++ ".0" else pyFloatStr q
  | .vStr s => s

/-- The guarded conversion `"" if pd.isna(cell) else str(cell)`. -/
def cellStr : PyVal → String
  | .vNaN => ""
  | v => pyStr v

/-- Python `raw.split(",")`: split on every comma, keeping empty pieces. -/
def pySplitComma (s : String) : List String :=
  splitAux [] s.toList
where
  /-- Accumulator-based splitting on `','`. -/
  splitAux (acc : List Char) : List Char → List String
    | [] => [String.mk acc.reverse]
    | c :: rest =>
      if c = ',' then String.mk acc.reverse :: splitAux [] rest
      else splitAux (c :: acc) rest

/-- The member-cell split `[m.strip() for m in raw.split(",") if m.strip()]`. -/
def splitMembers (raw : String) : List String :=
  ((pySplitComma raw).map pyStrip).filter (fun m => m != "")

/-- `_parse_groups_members` (main.py): one `(normalized label, members)` pair
per row whose members cell splits to a non-empty list; all other rows are
dropped. -/
def parseGroupsMembers (rows : List (PyVal × PyVal)) :
    List (String × List String) :=
  rows.filterMap (fun r =>
    let g := normalizeGroupLabel r.1
    let members := splitMembers (cellStr r.2)
    if members.isEmpty then none else some (g, members))

/-! Progress records and Python's 2-decimal rounding. -/

/-- Round to the nearest integer, ties to even (CPython `round`), computed
on `q`'s numerator and denominator: with `f = ⌊q⌋` and remainder
`r = num - f·den`, the fractional part compares to `1/2` as `2r` compares
to `den`. -/
def roundHalfEven (q : ℚ) : ℤ :=
  let f : ℤ := Int.fdiv q.num q.den
  let r : ℤ := q.num - f * q.den
  if 2 * r < (q.den : ℤ) then f
  else if (q.den : ℤ) < 2 * r then f + 1
  else if f % 2 = 0 then f else f + 1

/-- Exact product `q · n` computed on the numerator. -/
def qMulNat (q : ℚ) (n : Nat) : ℚ := mkRat (q.num * n) q.den

/-- `round(x, 2) = roundHalfEven(x · 100) / 100`. -/
def pyRound2 (q : ℚ) : ℚ := mkRat (roundHalfEven (qMulNat q 100)) 100

/-- The percent formula of `_update_progress`:
`round(step * 100 / max(1, total), 2)`, with the float arithmetic carried
exactly over the rationals. -/
def pctOf (step total : Nat) : ℚ :=
  pyRound2 (mkRat (step * 100) (max 1 total))

/-- A progress record as published into the task registry. -/
structure Progress where
  current : Nat
  total : Nat
  percent : ℚ
deriving DecidableEq, Repr

/-- The progress dict built by `_update_progress`. -/
def mkProgress (step total : Nat) : Progress := ⟨step, total, pctOf step total⟩

/-- The progress dict stored at submission:
`{"current": 0, "total": total, "percent": 0.0}`. -/
def initProgress (total : Nat) : Progress := ⟨0, total, 0⟩

/-! The three background workers. -/

/-- Result-record kinds (the `"type"` field of the dicts the workers append). -/
inductive RType where
  | folder
  | group_sheet
  | group_sheet_existing
  | indiv_group_sheet
  | indiv_group_sheet_existing
  | solo_sheet
  | solo_sheet_existing
  | individuals_folder
deriving DecidableEq, Repr

/-- One result record: kind, the contextual group label and member name, the
artifact's link (identified with its file id) and, where the source emits a
`"folder"` key, that folder's link. -/
structure ResultRecord where
  rtype : RType
  group : Option String
  member : Option String
  link : Nat
  folderLink : Option Nat
deriving DecidableEq, Repr

/-- Task lifecycle states. -/
inductive TStatus where
  | queued
  | running
  | completed
  | cancelled
  | error
deriving DecidableEq, Repr

/-- Cancellation: `cancel = some n` means the flag is observed set at every
poll with 1-based index `≥ n` and unset before; `none` means it is never
set during the run. -/
def cancelHit (cancel : Option Nat) (i : Nat) : Bool :=
  match cancel with
  | none => false
  | some n => decide (n ≤ i)

/-- Output of one worker loop: drive state, artifact-creating calls, result
records and progress updates in order, the step counter after the loop, the
next poll index, and whether a poll observed the cancellation flag. -/
structure LoopOut where
  state : DriveState
  calls : List RemoteCall
  results : List ResultRecord
  updates : List Progress
  step : Nat
  next : Nat
  stopped : Bool
deriving Repr

/-- Output of one whole worker run. -/
structure WOut where
  state : DriveState
  calls : List RemoteCall
  results : List ResultRecord
  updates : List Progress
  status : TStatus
deriving Repr

/-- `f"Group {group_number}"`. -/
def groupFolderName (g : String) : String := "Group " ++ g

/-- `f"Group {group_number} - Requirements"`. -/
def groupSheetName (g : String) : String := "Group " ++ g ++ " - Requirements"

/-- `f"{member} - Individual Contribution"`. -/
def contribSheetName (m : String) : String := m ++ " - Individual Contribution"

/-- `f"{name} - Individual Feedback"`. -/
def feedbackSheetName (n : String) : String := n ++ " - Individual Feedback"

/-- Output of a poll-free worker fragment: drive state, artifact-creating
calls, result records, progress updates (all in order) and the step counter
after it. -/
structure RowOut where
  state : DriveState
  calls : List RemoteCall
  results : List ResultRecord
  updates : List Progress
  step : Nat
deriving Repr

/-- The inner member loop shared verbatim by the groups and mixed workers:
for each member, find `"{member} - Individual Contribution"` in the group
folder, copy the template only when absent, append the record, bump the step
and publish progress.  No cancellation poll happens inside this loop. -/
def memberLoop (tmplIG : String) (folderId : Nat) (g : String) (total : Nat) :
    DriveState → Nat → List String → RowOut
  | s, step, [] => ⟨s, [], [], [], step⟩
  | s, step, m :: rest =>
    let target := contribSheetName m
    match findInFolder s folderId target with
    | none =>
        let (copy, s1) := copySheetCall s folderId target
        let ro := memberLoop tmplIG folderId g total s1 (step + 1) rest
        ⟨ro.state, RemoteCall.copySheet tmplIG target folderId :: ro.calls,
          ⟨.indiv_group_sheet, some g, some m, copy.fid, none⟩ :: ro.results,
          mkProgress (step + 1) total :: ro.updates, ro.step⟩
    | some ex =>
        let ro := memberLoop tmplIG folderId g total s (step + 1) rest
        ⟨ro.state, ro.calls,
          ⟨.indiv_group_sheet_existing, some g, some m, ex.fid, none⟩ :: ro.results,
          mkProgress (step + 1) total :: ro.updates, ro.step⟩

/-- The body of one group row, shared verbatim by the groups and mixed
workers: find-or-create the `"Group {label}"` folder (a `folder` record is
appended whether it was found or created), find-or-copy the requirements
sheet, then run the member loop. -/
def processRow (tmplG tmplIG : String) (rootId : Nat) (total : Nat)
    (s : DriveState) (step : Nat) (g : String) (members : List String) :
    RowOut :=
  let (folder, s1, cs1) := findOrCreateFolder s rootId (groupFolderName g)
  let folderRec : ResultRecord := ⟨.folder, some g, none, folder.fid, none⟩
  let p1 := mkProgress (step + 1) total
  let sheetName := groupSheetName g
  match findInFolder s1 folder.fid sheetName with
  | none =>
      let (grp, s2) := copySheetCall s1 folder.fid sheetName
      let sheetRec : ResultRecord := ⟨.group_sheet, some g, none, grp.fid, none⟩
      let p2 := mkProgress (step + 2) total
      let ro := memberLoop tmplIG folder.fid g total s2 (step + 2) members
      ⟨ro.state, cs1 ++ RemoteCall.copySheet tmplG sheetName folder.fid :: ro.calls,
        folderRec :: sheetRec :: ro.results, p1 :: p2 :: ro.updates, ro.step⟩
  | some ex =>
      let sheetRec : ResultRecord :=
        ⟨.group_sheet_existing, some g, none, ex.fid, none⟩
      let p2 := mkProgress (step + 2) total
      let ro := memberLoop tmplIG folder.fid g total s1 (step + 2) members
      ⟨ro.state, cs1 ++ ro.calls, folderRec :: sheetRec :: ro.results,
        p1 :: p2 :: ro.updates, ro.step⟩

/-- The row loop of `_run_generate_groups_task`: poll the cancellation flag
before each row, then process the row. -/
def groupsLoop (tmplG tmplIG : String) (rootId : Nat) (total : Nat)
    (cancel : Option Nat) :
    DriveState → Nat → Nat → List (String × List String) → LoopOut
  | s, step, i, [] => ⟨s, [], [], [], step, i, false⟩
  | s, step, i, (g, members) :: rest =>
    if cancelHit cancel i then ⟨s, [], [], [], step, i, true⟩
    else
      let ro := processRow tmplG tmplIG rootId total s step g members
      let lo := groupsLoop tmplG tmplIG rootId total cancel ro.state ro.step
        (i + 1) rest
      ⟨lo.state, ro.calls ++ lo.calls, ro.results ++ lo.results,
        ro.updates ++ lo.updates, lo.step, lo.next, lo.stopped⟩

/-- The row loop of `_run_generate_mixed_task`: rows with at most one member
are skipped by `continue` before the poll; group rows behave as in the groups
worker. -/
def mixedGroupsLoop (tmplG tmplIG : String) (rootId : Nat) (total : Nat)
    (cancel : Option Nat) :
    DriveState → Nat → Nat → List (String × List String) → LoopOut
  | s, step, i, [] => ⟨s, [], [], [], step, i, false⟩
  | s, step, i, (g, members) :: rest =>
    if members.length ≤ 1 then
      mixedGroupsLoop tmplG tmplIG rootId total cancel s step i rest
    else if cancelHit cancel i then ⟨s, [], [], [], step, i, true⟩
    else
      let ro := processRow tmplG tmplIG rootId total s step g members
      let lo := mixedGroupsLoop tmplG tmplIG rootId total cancel ro.state ro.step
        (i + 1) rest
      ⟨lo.state, ro.calls ++ lo.calls, ro.results ++ lo.results,
        ro.updates ++ lo.updates, lo.step, lo.next, lo.stopped⟩

/-- The solo loop of the mixed worker: poll, find
`"{name} - Individual Feedback"` in the Individuals folder, copy only when
absent (records carry no folder link in this worker). -/
def soloLoop (tmplI : String) (indivFid : Nat) (total : Nat)
    (cancel : Option Nat) :
    DriveState → Nat → Nat → List String → LoopOut
  | s, step, i, [] => ⟨s, [], [], [], step, i, false⟩
  | s, step, i, n :: rest =>
    if cancelHit cancel i then ⟨s, [], [], [], step, i, true⟩
    else
      let target := feedbackSheetName n
      match findInFolder s indivFid target with
      | none =>
          let (copy, s1) := copySheetCall s indivFid target
          let lo := soloLoop tmplI indivFid total cancel s1 (step + 1) (i + 1) rest
          ⟨lo.state, RemoteCall.copySheet tmplI target indivFid :: lo.calls,
            ⟨.solo_sheet, none, some n, copy.fid, none⟩ :: lo.results,
            mkProgress (step + 1) total :: lo.updates, lo.step, lo.next, lo.stopped⟩
      | some ex =>
          let lo := soloLoop tmplI indivFid total cancel s (step + 1) (i + 1) rest
          ⟨lo.state, lo.calls,
            ⟨.solo_sheet_existing, none, some n, ex.fid, none⟩ :: lo.results,
            mkProgress (step + 1) total :: lo.updates, lo.step, lo.next, lo.stopped⟩

/-- The name loop of `_run_generate_individuals_task`: poll, find
`"{name} - Individual Feedback"` in the Individuals folder, copy only when
absent; progress current is the 1-based name index and records carry the
Individuals folder link. -/
def indivLoop (tmplI : String) (indivFid : Nat) (indivLink : Nat)
    (total : Nat) (cancel : Option Nat) :
    DriveState → Nat → List String → LoopOut
  | s, i, [] => ⟨s, [], [], [], 0, i, false⟩
  | s, i, n :: rest =>
    if cancelHit cancel i then ⟨s, [], [], [], 0, i, true⟩
    else
      let target := feedbackSheetName n
      match findInFolder s indivFid target with
      | some ex =>
          let lo := indivLoop tmplI indivFid indivLink total cancel s (i + 1) rest
          ⟨lo.state, lo.calls,
            ⟨.solo_sheet_existing, none, some n, ex.fid, some indivLink⟩ :: lo.results,
            mkProgress i total :: lo.updates, lo.step, lo.next, lo.stopped⟩
      | none =>
          let (copy, s1) := copySheetCall s indivFid target
          let lo := indivLoop tmplI indivFid indivLink total cancel s1 (i + 1) rest
          ⟨lo.state, RemoteCall.copySheet tmplI target indivFid :: lo.calls,
            ⟨.solo_sheet, none, some n, copy.fid, some indivLink⟩ :: lo.results,
            mkProgress i total :: lo.updates, lo.step, lo.next, lo.stopped⟩

/-- `_run_generate_individuals_task`: ensure the `"Individuals"` subfolder
once (no result record), then run the name loop. -/
def runIndividuals (s0 : DriveState) (rootId : Nat) (tmplI : String)
    (names : List String) (cancel : Option Nat) : WOut :=
  let (indiv, s1, cs1) := getOrCreateSubfolder s0 rootId "Individuals"
  let lo := indivLoop tmplI indiv.fid indiv.fid names.length cancel s1 1 names
  ⟨lo.state, cs1 ++ lo.calls, lo.results, lo.updates,
    if lo.stopped then .cancelled else .completed⟩

/-- `total = sum(1 + 1 + len(members) for _, members in rows)`. -/
def rowsWork (rows : List (String × List String)) : Nat :=
  rows.foldr (fun r acc => 1 + 1 + r.2.length + acc) 0

/-- `_run_generate_groups_task`. -/
def runGroups (s0 : DriveState) (rootId : Nat) (tmplG tmplIG : String)
    (rows : List (String × List String)) (cancel : Option Nat) : WOut :=
  let total := rowsWork rows
  let lo := groupsLoop tmplG tmplIG rootId total cancel s0 0 1 rows
  ⟨lo.state, lo.calls, lo.results, lo.updates,
    if lo.stopped then .cancelled else .completed⟩

/-- The test `len(m) > 1` of the mixed flow. -/
def isGroupRow (r : String × List String) : Bool :=
  decide (1 < r.2.length)

/-- `total = sum(1 + 1 + len(m) for _, m in rows if len(m) > 1)
 + len(solo_names)` (computed identically in `generate_mixed` and in the
worker). -/
def mixedTotal (rows : List (String × List String)) (solos : List String) :
    Nat :=
  rowsWork (rows.filter isGroupRow) + solos.length

/-- `solo_names = [m[0] for _, m in rows if len(m) == 1]` (generate_mixed). -/
def soloNamesOf (rows : List (String × List String)) : List String :=
  rows.filterMap (fun r => match r.2 with | [x] => some x | _ => none)

/-- `groups_rows = [(g, m) for g, m in rows if len(m) > 1]` (generate_mixed). -/
def mixedGroupsRows (rows : List (String × List String)) :
    List (String × List String) :=
  rows.filter isGroupRow

/-- `_run_generate_mixed_task`: the row loop over all rows (skipping rows
with at most one member), then — only when solo names exist — the
`"Individuals"` subfolder is ensured, its record appended, and the solo loop
run with the poll index continuing after the group rows. -/
def runMixed (s0 : DriveState) (rootId : Nat) (tmplG tmplIG tmplI : String)
    (rows : List (String × List String)) (solos : List String)
    (cancel : Option Nat) : WOut :=
  let total := mixedTotal rows solos
  let glo := mixedGroupsLoop tmplG tmplIG rootId total cancel s0 0 1 rows
  if glo.stopped then
    ⟨glo.state, glo.calls, glo.results, glo.updates, .cancelled⟩
  else if solos.isEmpty then
    ⟨glo.state, glo.calls, glo.results, glo.updates, .completed⟩
  else
    let (indiv, s1, cs1) := getOrCreateSubfolder glo.state rootId "Individuals"
    let indivRec : ResultRecord := ⟨.individuals_folder, none, none, indiv.fid, none⟩
    let slo := soloLoop tmplI indiv.fid total cancel s1 glo.step glo.next solos
    ⟨slo.state, glo.calls ++ cs1 ++ slo.calls,
      glo.results ++ indivRec :: slo.results,
      glo.updates ++ slo.updates,
      if slo.stopped then .cancelled else .completed⟩

/-! The in-memory task registry and `_update_progress`. -/

/-- One `task_status[task_id]` record.  Keys absent until first assignment
(`updated_at`, `finished_at`, `error`, `last`) are `Option`s. -/
structure TaskRecord where
  status : TStatus
  progress : Progress
  createdAt : Nat
  updatedAt : Option Nat
  finishedAt : Option Nat
  results : List ResultRecord
  errMsg : Option String
  last : Option String
deriving DecidableEq, Repr

/-- The `task_status` dict: task id to record, as an association list whose
lookup takes the first binding (dict keys are unique; first-wins generalises
that). -/
def Registry := List (String × TaskRecord)

/-- `task_status.get(task_id)`. -/
def regGet (reg : Registry) (tid : String) : Option TaskRecord :=
  List.lookup tid reg

/-- In-place mutation of the record bound to `tid` (Python mutates the dict
object returned by `get`, leaving the registry mapping itself untouched). -/
def regSet (reg : Registry) (tid : String) (r : TaskRecord) : Registry :=
  reg.map (fun p => if p.1 = tid then (tid, r) else p)

/-- `_update_progress` (main.py): a silent no-op when the task id is unknown;
otherwise the record's `progress` is replaced by one freshly built dict,
`last` by the meta dict, and `updated_at` by the current timestamp. -/
def updateProgress (reg : Registry) (tid : String) (step total : Nat)
    (meta : String) (now : Nat) : Registry :=
  match regGet reg tid with
  | none => reg
  | some st =>
      regSet reg tid
        { st with
          progress := mkProgress step total
          last := some meta
          updatedAt := some now }

/-! The export walker of `src/google_download.py`. -/

/-- Drive mimeTypes the walker distinguishes (`GOOGLE_SHEET` is `SHEET_MT`
and `GOOGLE_FOLDER` is `FOLDER_MT` above). -/
def GOOGLE_DOC : String := "application/vnd.google-apps.document"

/-- Slides mimeType. -/
def GOOGLE_SLIDE : String := "application/vnd.google-apps.presentation"

/-- The shortcut mimeType (never mentioned by the walker source; it exists
here only to state claims about shortcut-typed children). -/
def GOOGLE_SHORTCUT : String := "application/vnd.google-apps.shortcut"

/-- `_safe` (google_download.py): replace `<>:"/\|?*` by `_`, strip
surrounding whitespace, then strip trailing dots. -/
def safeName (name : String) : String :=
  let bad : List Char := ['<', '>', ':', '"', '/', '\\', '|', '?', '*']
  let replaced := String.mk
    (name.toList.map (fun c => if c ∈ bad then '_' else c))
  rstripChar '.' (pyStrip replaced)

/-- A node of the remote tree the walker visits: a folder with its listed
children (pagination is transparent: pages concatenate to this list), or a
file with its mimeType. -/
inductive RNode where
  | folder (fid : String) (name : String) (children : List RNode)
  | file (fid : String) (name : String) (mimeType : String)

/-- What the walker does with one routed entry. -/
inductive OutKind where
  | pdfSheet
  | pdfExport
  | rawBin
deriving DecidableEq, Repr

/-- One local file produced by the walk: the directory components below the
destination root, the local file name, and how it was produced. -/
structure OutEntry where
  path : List String
  fname : String
  kind : OutKind
deriving DecidableEq, Repr

mutual

/-- Routing of one listed child in `walk` (google_download.py): skip-listed
ids are dropped; folders recurse into a sanitized subdirectory; native
sheets are fetched through the fixed-layout export URL as
`{_safe(name)}.pdf`; docs and slides through the generic PDF export; every
other mimeType — shortcuts included — is downloaded as raw bytes under its
sanitized name. -/
def walkOne (skipIds : List String) (path : List String) :
    RNode → List OutEntry
  | .folder fid name children =>
      if fid ∈ skipIds then []
      else walkList skipIds (path ++ [safeName name]) children
  | .file fid name mt =>
      if fid ∈ skipIds then []
      else if mt = SHEET_MT then [⟨path, safeName name ++ ".pdf", .pdfSheet⟩]
      else if mt = GOOGLE_DOC ∨ mt = GOOGLE_SLIDE then
        [⟨path, safeName name ++ ".pdf", .pdfExport⟩]
      else [⟨path, safeName name, .rawBin⟩]

/-- The walk over one folder's listing, in listing order. -/
def walkList (skipIds : List String) (path : List String) :
    List RNode → List OutEntry
  | [] => []
  | c :: rest => walkOne skipIds path c ++ walkList skipIds path rest

end

/-- An HTTP response to the spreadsheet export URL, as seen by
`download_google_sheet_pdf`: status code, `Content-Type` header and body
bytes. -/
structure HttpResponse where
  statusCode : Nat
  contentType : String
  body : List Nat
deriving DecidableEq, Repr

/-- `download_google_sheet_pdf` (google_download.py): `raise_for_status()`
(an error exactly when the status code is 4xx/5xx), then the body is
streamed into `{_safe(name)}.pdf` — no inspection of the payload or of the
`Content-Type` header happens. -/
def downloadGoogleSheetPdf (resp : HttpResponse) (name : String) :
    Except String (String × List Nat) :=
  if 400 ≤ resp.statusCode then .error "HTTPError"
  else .ok (safeName name ++ ".pdf", resp.body)

/-- The `*_existing` result variants. -/
def isExistingRType : RType → Bool
  | .group_sheet_existing => true
  | .indiv_group_sheet_existing => true
  | .solo_sheet_existing => true
  | _ => false

/-- State evolution of the model: a worker only ever appends files and
advances the fresh-id counter. -/
def Extends (s s' : DriveState) : Prop :=
  (∃ ext, s'.files = s.files ++ ext) ∧ s.nextId ≤ s'.nextId

/-- A destination folder with no pre-existing children, inside a store
whose file and parent ids are below the fresh-id counter (every state a
real Drive listing yields satisfies the freshness part; the no-children
part is the idempotence claim's "same destination folder" baseline). -/
def CleanState (s : DriveState) (rootId : Nat) : Prop :=
  rootId < s.nextId ∧
  ∀ f ∈ s.files, f.fid < s.nextId ∧ f.parent < s.nextId ∧ f.fid ≠ rootId ∧
    f.parent ≠ rootId

/-- Run-time invariant of a worker over a clean destination: ids stay
fresh, nothing is the root, and every untrashed child of the root is a
folder (workers only ever create folders directly under the root). -/
def GInv (rootId : Nat) (s : DriveState) : Prop :=
  rootId < s.nextId ∧
  (∀ f ∈ s.files, f.fid < s.nextId ∧ f.parent < s.nextId ∧ f.fid ≠ rootId) ∧
  (∀ f ∈ s.files, f.parent = rootId → f.trashed = false →
    f.mimeType = FOLDER_MT)

/-- All lookups a re-run of one group row will perform hit: the first name
match for the row's folder is folder-typed, and the requirements sheet and
every member sheet exist inside it. -/
def CoveredRow (s : DriveState) (rootId : Nat) (g : String)
    (members : List String) : Prop :=
  ∃ F, findInFolder s rootId (groupFolderName g) = some F ∧
    F.mimeType = FOLDER_MT ∧
    (findInFolder s F.fid (groupSheetName g)).isSome = true ∧
    ∀ m ∈ members, (findInFolder s F.fid (contribSheetName m)).isSome = true

/-- The progress invariant of the claim: `0 ≤ current ≤ total` (`current`
is a `Nat` here, so the lower bound is inherent) and `percent` equal to the
code's own formula `round(current*100/max(1,total), 2)`. -/
def ProgressOK (p : Progress) : Prop :=
  p.current ≤ p.total ∧ p.percent = pctOf p.current p.total

/-! Theorems. -/

/-- A successful `_find_in_folder` lookup returns an untrashed child of the
parent bearing exactly the requested name. -/
theorem findInFolder_eq_some {s : DriveState} {parent : Nat} {name : String}
    {f : DriveFile} (h : findInFolder s parent name = some f) :
    f ∈ s.files ∧ f.name = name ∧ f.parent = parent ∧ f.trashed = false := by
  unfold findInFolder at h
  have hmem : f ∈ s.files.filter (matchesName parent name) := by
    cases hl : s.files.filter (matchesName parent name) with
    | nil => rw [hl] at h; simp at h
    | cons a t =>
        rw [hl] at h
        simp at h
        subst h
        exact List.mem_cons_self a t
  rw [List.mem_filter] at hmem
  obtain ⟨hin, hmatch⟩ := hmem
  simp only [matchesName, Bool.and_eq_true, beq_iff_eq, Bool.not_eq_true'] at hmatch
  exact ⟨hin, hmatch.1.1, hmatch.1.2, hmatch.2⟩

/-- C8: `_find_or_create_folder` always returns a folder-typed item; and
whenever the first name match under the parent exists but is not
folder-typed, it creates and returns a brand-new folder with that name, so
afterwards the parent holds both the old non-folder child and the new
folder under the same name. -/
theorem C8_find_or_create_folder (s : DriveState) (parent : Nat)
    (name : String) :
    (findOrCreateFolder s parent name).1.mimeType = FOLDER_MT ∧
    (∀ f, findInFolder s parent name = some f → f.mimeType ≠ FOLDER_MT →
      (findOrCreateFolder s parent name).1 =
        ⟨s.nextId, name, FOLDER_MT, parent, false⟩ ∧
      (findOrCreateFolder s parent name).2.2 =
        [RemoteCall.createFolder parent name] ∧
      (findOrCreateFolder s parent name).2.1.files =
        s.files ++ [⟨s.nextId, name, FOLDER_MT, parent, false⟩] ∧
      f ∈ s.files ∧ f.name = name ∧ f.parent = parent ∧
      f ≠ (⟨s.nextId, name, FOLDER_MT, parent, false⟩ : DriveFile)) := by
  constructor
  · unfold findOrCreateFolder
    cases h : findInFolder s parent name with
    | none => simp [createFolderCall]
    | some f =>
        by_cases hm : f.mimeType = FOLDER_MT <;> simp [hm, createFolderCall]
  · intro f hf hm
    obtain ⟨hmem, hname, hparent, _⟩ := findInFolder_eq_some hf
    have hred : findOrCreateFolder s parent name =
        (⟨s.nextId, name, FOLDER_MT, parent, false⟩,
          ⟨s.files ++ [⟨s.nextId, name, FOLDER_MT, parent, false⟩], s.nextId + 1⟩,
          [RemoteCall.createFolder parent name]) := by
      unfold findOrCreateFolder
      rw [hf]
      simp [hm, createFolderCall]
    refine ⟨by rw [hred], by rw [hred], by rw [hred], hmem, hname, hparent, ?_⟩
    intro he
    exact hm (by rw [he])

/-- C8, witness: a parent whose only child named `"X"` is a spreadsheet. -/
theorem C8_witness :
    findInFolder ⟨[⟨5, "X", SHEET_MT, 0, false⟩], 6⟩ 0 "X" =
      some ⟨5, "X", SHEET_MT, 0, false⟩ ∧
    (⟨5, "X", SHEET_MT, 0, false⟩ : DriveFile).mimeType ≠ FOLDER_MT ∧
    (findOrCreateFolder ⟨[⟨5, "X", SHEET_MT, 0, false⟩], 6⟩ 0 "X").1 =
      ⟨6, "X", FOLDER_MT, 0, false⟩ ∧
    (findOrCreateFolder ⟨[⟨5, "X", SHEET_MT, 0, false⟩], 6⟩ 0 "X").2.1.files =
      [⟨5, "X", SHEET_MT, 0, false⟩] ++ [⟨6, "X", FOLDER_MT, 0, false⟩] := by
  have h := (C8_find_or_create_folder ⟨[⟨5, "X", SHEET_MT, 0, false⟩], 6⟩ 0 "X").2
    ⟨5, "X", SHEET_MT, 0, false⟩ (by decide) (by decide)
  exact ⟨by decide, by decide, h.1, h.2.2.1⟩

/-- Lookup of a cons whose key matches. -/
theorem regGet_cons_self (k : String) (v : TaskRecord) (t : Registry) :
    regGet ((k, v) :: t) k = some v := by
  show List.lookup k ((k, v) :: t) = some v
  rw [List.lookup]
  simp

/-- Lookup of a cons whose key differs. -/
theorem regGet_cons_ne (k a : String) (v : TaskRecord) (t : Registry)
    (h : a ≠ k) : regGet ((k, v) :: t) a = regGet t a := by
  show List.lookup a ((k, v) :: t) = List.lookup a t
  rw [List.lookup]
  have hb : (a == k) = false := beq_eq_false_iff_ne.mpr h
  rw [hb]

/-- `regSet` on a cons whose key matches. -/
theorem regSet_cons_self (k : String) (v r' : TaskRecord) (t : Registry) :
    regSet ((k, v) :: t) k r' = (k, r') :: regSet t k r' := by
  simp [regSet]

/-- `regSet` on a cons whose key differs. -/
theorem regSet_cons_ne (k tid : String) (v r' : TaskRecord) (t : Registry)
    (h : k ≠ tid) : regSet ((k, v) :: t) tid r' = (k, v) :: regSet t tid r' := by
  simp [regSet, h]

/-- Replacing the record bound to `tid` makes `tid` look up the new
record (provided `tid` was bound). -/
theorem regGet_regSet_self (reg : Registry) (tid : String) (r r' : TaskRecord)
    (h : regGet reg tid = some r) :
    regGet (regSet reg tid r') tid = some r' := by
  induction reg with
  | nil => simp [regGet, List.lookup] at h
  | cons p t ih =>
      obtain ⟨k, v⟩ := p
      by_cases hk : k = tid
      · subst hk
        rw [regSet_cons_self, regGet_cons_self]
      · rw [regSet_cons_ne k tid v r' t hk,
          regGet_cons_ne k tid v (regSet t tid r') (Ne.symm hk)]
        rw [regGet_cons_ne k tid v t (Ne.symm hk)] at h
        exact ih h

/-- Replacing the record bound to `tid` leaves every other id's lookup
unchanged. -/
theorem regGet_regSet_ne (reg : Registry) (tid tid2 : String)
    (r' : TaskRecord) (h : tid2 ≠ tid) :
    regGet (regSet reg tid r') tid2 = regGet reg tid2 := by
  induction reg with
  | nil => rfl
  | cons p t ih =>
      obtain ⟨k, v⟩ := p
      by_cases hk : k = tid
      · subst hk
        rw [regSet_cons_self, regGet_cons_ne k tid2 r' (regSet t k r') h,
          regGet_cons_ne k tid2 v t h]
        exact ih
      · by_cases hk2 : k = tid2
        · subst hk2
          rw [regSet_cons_ne k tid v r' t hk, regGet_cons_self, regGet_cons_self]
        · rw [regSet_cons_ne k tid v r' t hk,
            regGet_cons_ne k tid2 v (regSet t tid r') (fun he => hk2 he.symm),
            regGet_cons_ne k tid2 v t (fun he => hk2 he.symm)]
          exact ih

/-- C9: `_update_progress` on an unknown task id is a silent no-op leaving
the registry unchanged (the code returns before touching anything, raising
no error — the model is a total function); on a known id it installs one
freshly-built progress dict (current, total and percent all newly
computed, independent of the old progress) together with the new
`updated_at`, leaving every other task's record untouched. -/
theorem C9_update_progress (reg : Registry) (tid : String) (step total : Nat)
    (meta : String) (now : Nat) :
    (regGet reg tid = none → updateProgress reg tid step total meta now = reg) ∧
    (∀ r, regGet reg tid = some r →
      regGet (updateProgress reg tid step total meta now) tid =
        some { r with
          progress := ⟨step, total, pctOf step total⟩
          last := some meta
          updatedAt := some now } ∧
      ∀ tid2, tid2 ≠ tid →
        regGet (updateProgress reg tid step total meta now) tid2 =
          regGet reg tid2) := by
  constructor
  · intro h
    simp [updateProgress, h]
  · intro r h
    constructor
    · have := regGet_regSet_self reg tid r
        { r with
          progress := mkProgress step total
          last := some meta
          updatedAt := some now } h
      simpa [updateProgress, h, mkProgress] using this
    · intro tid2 h2
      have := regGet_regSet_ne reg tid tid2
        { r with
          progress := mkProgress step total
          last := some meta
          updatedAt := some now } h2
      simpa [updateProgress, h] using this

/-- C9, witness: one concrete registry with task `"t"` bound and a lookup
of the unknown id `"u"`. -/
theorem C9_witness :
    regGet [("t", ⟨.running, initProgress 4, 0, none, none, [], none, none⟩)]
        "t" = some ⟨.running, initProgress 4, 0, none, none, [], none, none⟩ ∧
    ("u" : String) ≠ "t" ∧
    regGet (updateProgress
        [("t", ⟨.running, initProgress 4, 0, none, none, [], none, none⟩)]
        "t" 2 4 "meta" 9) "t" =
      some ⟨.running, ⟨2, 4, pctOf 2 4⟩, 0, some 9, none, [], none, some "meta"⟩ ∧
    regGet (updateProgress
        [("t", ⟨.running, initProgress 4, 0, none, none, [], none, none⟩)]
        "t" 2 4 "meta" 9) "u" =
      regGet [("t", ⟨.running, initProgress 4, 0, none, none, [], none, none⟩)]
        "u" := by
  have h := (C9_update_progress
    [("t", ⟨.running, initProgress 4, 0, none, none, [], none, none⟩)]
    "t" 2 4 "meta" 9).2
    ⟨.running, initProgress 4, 0, none, none, [], none, none⟩ (by decide)
  exact ⟨by decide, by decide, h.1, h.2 "u" (by decide)⟩

/-- C10: `_parse_groups_members` drops every row whose members cell is
missing (NaN, which stringifies to `""`), blank, or containing only commas
and whitespace — any such row contributes neither a parsed row nor any work
units — and every row it does emit carries a non-empty members list. -/
theorem C10_roster_parsing (rows pre post : List (PyVal × PyVal))
    (bad : PyVal × PyVal) :
    (∀ r ∈ parseGroupsMembers rows, r.2 ≠ []) ∧
    (splitMembers (cellStr bad.2) = [] →
      parseGroupsMembers (pre ++ bad :: post) = parseGroupsMembers (pre ++ post) ∧
      rowsWork (parseGroupsMembers (pre ++ bad :: post)) =
        rowsWork (parseGroupsMembers (pre ++ post))) ∧
    splitMembers "" = [] ∧ splitMembers " ,  ,, " = [] ∧ cellStr .vNaN = "" := by
  refine ⟨?_, ?_, by decide, by decide, rfl⟩
  · intro r hr
    rw [parseGroupsMembers, List.mem_filterMap] at hr
    obtain ⟨a, _, ha⟩ := hr
    by_cases he : (splitMembers (cellStr a.2)).isEmpty
    · simp [he] at ha
    · simp only [he, Bool.false_eq_true, if_false, Option.some.injEq] at ha
      rw [← ha]
      simpa using he
  · intro h
    have heq : parseGroupsMembers (pre ++ bad :: post) =
        parseGroupsMembers (pre ++ post) := by
      unfold parseGroupsMembers
      rw [List.filterMap_append, List.filterMap_append, List.filterMap_cons]
      simp [h]
    exact ⟨heq, by rw [heq]⟩

/-- C10, witness: a roster with one real group row and one row whose
members cell is only commas and whitespace. -/
theorem C10_witness :
    splitMembers (cellStr (.vStr " , ")) = [] ∧
    parseGroupsMembers
        [(.vStr "1", .vStr "A,B"), (.vStr "2", .vStr " , ")] =
      parseGroupsMembers [(.vStr "1", .vStr "A,B")] := by
  refine ⟨by decide, ?_⟩
  have h := (C10_roster_parsing [] [(.vStr "1", .vStr "A,B")] []
    (.vStr "2", .vStr " , ")).2.1 (by decide)
  simpa using h.1

/-- C6, counterexample: in the claim's scenario — a folder listing one
native spreadsheet, one plain image and one shortcut pointing at a
document — the walker routes the shortcut-typed entry straight to the
raw-bytes branch under the shortcut's own sanitized name: no metadata fetch
resolves the target, nothing recurses into or exports it, and no generic
PDF export happens at all, refuting the claimed shortcut resolution. -/
theorem C6_counterexample :
    walkList [] [] [.file "s1" "Budget" SHEET_MT, .file "i1" "pic.png" "image/png",
        .file "sc1" "Link to Notes" GOOGLE_SHORTCUT] =
      [⟨[], "Budget.pdf", .pdfSheet⟩, ⟨[], "pic.png", .rawBin⟩,
        ⟨[], "Link to Notes", .rawBin⟩] ∧
    ((walkList [] [] [.file "s1" "Budget" SHEET_MT, .file "i1" "pic.png" "image/png",
        .file "sc1" "Link to Notes" GOOGLE_SHORTCUT]).all
      (fun e => e.kind != OutKind.pdfExport)) = true := by
  constructor
  · simp only [walkList, walkOne]
    decide
  · simp only [walkList, walkOne]
    decide

/-- C6, amended: the walker routes purely on the child's mimeType — folders
recurse into a sanitized subdirectory, native sheets export through the
fixed-layout call as `.pdf`, docs and slides through the generic PDF
export, and every other child, shortcut-typed entries included, is
downloaded as raw bytes under its sanitized name with no target
resolution; skip-listed ids are omitted entirely.  The claim's scenario
therefore yields one sheet PDF, one raw image and one raw shortcut blob
(and, had the third child been a real subfolder, recursion into it). -/
theorem C6_export_routing_amended :
    (∀ skipIds path fid name mt, fid ∉ skipIds → mt ≠ FOLDER_MT →
      mt ≠ SHEET_MT → mt ≠ GOOGLE_DOC → mt ≠ GOOGLE_SLIDE →
      walkOne skipIds path (.file fid name mt) =
        [⟨path, safeName name, .rawBin⟩]) ∧
    (∀ skipIds path fid name, fid ∉ skipIds →
      walkOne skipIds path (.file fid name SHEET_MT) =
        [⟨path, safeName name ++ ".pdf", .pdfSheet⟩]) ∧
    (∀ skipIds path fid name, fid ∉ skipIds →
      walkOne skipIds path (.file fid name GOOGLE_DOC) =
        [⟨path, safeName name ++ ".pdf", .pdfExport⟩]) ∧
    (∀ skipIds path fid name, fid ∉ skipIds →
      walkOne skipIds path (.file fid name GOOGLE_SLIDE) =
        [⟨path, safeName name ++ ".pdf", .pdfExport⟩]) ∧
    (∀ skipIds path fid name children, fid ∉ skipIds →
      walkOne skipIds path (.folder fid name children) =
        walkList skipIds (path ++ [safeName name]) children) ∧
    (∀ skipIds path fid name mt, fid ∈ skipIds →
      walkOne skipIds path (.file fid name mt) = []) ∧
    safeName "Group: A/B?" = "Group_ A_B_" ∧
    walkList [] []
        [.file "s1" "Budget" SHEET_MT, .file "i1" "pic.png" "image/png",
          .folder "d1" "Sub: dir" [.file "doc1" "Notes" GOOGLE_DOC]] =
      [⟨[], "Budget.pdf", .pdfSheet⟩, ⟨[], "pic.png", .rawBin⟩,
        ⟨["Sub_ dir"], "Notes.pdf", .pdfExport⟩] := by
  refine ⟨?_, ?_, ?_, ?_, ?_, ?_, by decide, ?_⟩
  · intro skipIds path fid name mt h _ h2 h3 h4
    simp [walkOne, h, h2, h3, h4]
  · intro skipIds path fid name h
    simp [walkOne, h]
  · intro skipIds path fid name h
    simp [walkOne, h, GOOGLE_DOC, SHEET_MT]
  · intro skipIds path fid name h
    simp [walkOne, h, GOOGLE_SLIDE, SHEET_MT, GOOGLE_DOC]
  · intro skipIds path fid name children h
    simp [walkOne, h]
  · intro skipIds path fid name mt h
    simp [walkOne, h]
  · simp only [walkList, walkOne]
    decide

/-- C6, witness: the amended routing applied to a shortcut-typed child. -/
theorem C6_witness :
    ("sc1" : String) ∉ ([] : List String) ∧
    walkOne [] [] (.file "sc1" "Link to Notes" GOOGLE_SHORTCUT) =
      [⟨[], safeName "Link to Notes", .rawBin⟩] := by
  refine ⟨by decide, ?_⟩
  exact C6_export_routing_amended.1 [] [] "sc1" "Link to Notes" GOOGLE_SHORTCUT
    (by decide) (by decide) (by decide) (by decide) (by decide)

/-- C5, counterexample: the claim maps `"3.50"` to `"3.5"`, but the string
branch of `_normalize_group_label` returns a non-integer numeric string
unchanged — trailing-zero stripping happens only in the float-typed branch —
so the label `"3.50"` normalizes to `"3.50"`, not `"3.5"`. -/
theorem C5_counterexample :
    normalizeGroupLabel (.vStr "3.50") = "3.50" ∧ ("3.50" : String) ≠ "3.5" := by
  refine ⟨by decide, by decide⟩

/-- C5, amended: integer-valued labels (ints, integer-valued floats, and
strings parsing as integer-valued decimals) are rendered as the bare
integer; non-numeric strings pass through stripped of surrounding
whitespace; but a string label with a non-integer numeric value passes
through unchanged rather than being stripped of trailing zeros
(`"3.50" → "3.50"`, `"2.50" → "2.50"`); only float-typed values get the
trailing-zero rendering (`3.5 → "3.5"`).  `"1.0" → "1"`, `"2" → "2"` and
`"Alpha" → "Alpha"` hold as claimed.  (The magnitude bound marks where the
exact-rational model provably agrees with CPython's binary floats.) -/
theorem C5_label_normalization_amended :
    (∀ n : ℤ, normalizeGroupLabel (.vInt n) = toString n) ∧
    (∀ q : ℚ, q.den = 1 → normalizeGroupLabel (.vFloat q) = toString q.num) ∧
    (∀ s : String, ∀ q : ℚ, pyFloatOfString (pyStrip s) = some q → q.den = 1 →
      q.num.natAbs < 10 ^ 15 → normalizeGroupLabel (.vStr s) = toString q.num) ∧
    (∀ s : String, ∀ q : ℚ, pyFloatOfString (pyStrip s) = some q → q.den ≠ 1 →
      normalizeGroupLabel (.vStr s) = pyStrip s) ∧
    (∀ s : String, pyFloatOfString (pyStrip s) = none →
      normalizeGroupLabel (.vStr s) = pyStrip s) ∧
    normalizeGroupLabel (.vStr "1.0") = "1" ∧
    normalizeGroupLabel (.vStr "2") = "2" ∧
    normalizeGroupLabel (.vStr "3.50") = "3.50" ∧
    normalizeGroupLabel (.vStr "2.50") = "2.50" ∧
    normalizeGroupLabel (.vStr "Alpha") = "Alpha" ∧
    normalizeGroupLabel (.vFloat (mkRat 7 2)) = "3.5" ∧
    normalizeGroupLabel (.vFloat (mkRat 5 2)) = "2.5" := by
  refine ⟨fun n => rfl, fun q hq => by simp [normalizeGroupLabel, hq],
    fun s q hp hq _ => by simp [normalizeGroupLabel, hp, hq],
    fun s q hp hq => by simp [normalizeGroupLabel, hp, hq],
    fun s hp => by simp [normalizeGroupLabel, hp],
    by decide, by decide, by decide, by decide, by decide, by decide, by decide⟩

/-- C5, witness for the amended theorem's hypotheses, at the label
`" 12.0 "`. -/
theorem C5_witness :
    pyFloatOfString (pyStrip " 12.0 ") = some (mkRat 12 1) ∧
    (mkRat 12 1).den = 1 ∧ (mkRat 12 1).num.natAbs < 10 ^ 15 ∧
    normalizeGroupLabel (.vStr " 12.0 ") = toString (mkRat 12 1).num := by
  refine ⟨by decide, by decide, by decide, ?_⟩
  exact C5_label_normalization_amended.2.2.1 " 12.0 " (mkRat 12 1) (by decide)
    (by decide) (by decide)

/-- C7: the claim (and §7(d) of the spec) requires the spreadsheet PDF
export to validate that the payload really is PDF content; the code only
calls `raise_for_status()`.  At this failing input — an HTTP 200 response
whose `Content-Type` is `text/html` carrying an HTML body, exactly what the
export URL returns for an unauthenticated session — the code silently saves
the HTML bytes under a `.pdf` name instead of reporting a distinct
failure. -/
theorem C7_failing_eval :
    downloadGoogleSheetPdf ⟨200, "text/html", [60, 104, 116, 109, 108, 62]⟩
        "Group 1 - Requirements" =
      .ok ("Group 1 - Requirements.pdf", [60, 104, 116, 109, 108, 62]) ∧
    ("text/html" : String) ≠ "application/pdf" := by
  refine ⟨rfl, by decide⟩

/-- `rowsWork` of a cons. -/
theorem rowsWork_cons (r : String × List String)
    (rest : List (String × List String)) :
    rowsWork (r :: rest) = 1 + 1 + r.2.length + rowsWork rest := rfl

/-- `rowsWork` is the claimed sum `Σ (1 + 1 + |members|)`. -/
theorem rowsWork_eq_sum (rows : List (String × List String)) :
    rowsWork rows = (rows.map (fun r => 1 + 1 + r.2.length)).sum := by
  induction rows with
  | nil => rfl
  | cons r rest ih => simp [rowsWork_cons, ih]

/-- The member loop advances the step counter by the member count. -/
theorem memberLoop_step (tIG : String) (fid : Nat) (g : String) (total : Nat)
    (s : DriveState) (step : Nat) (ms : List String) :
    (memberLoop tIG fid g total s step ms).step = step + ms.length := by
  induction ms generalizing s step with
  | nil => rfl
  | cons m rest ih =>
      cases h : findInFolder s fid (contribSheetName m) with
      | none => simp [memberLoop, h, ih]; omega
      | some ex => simp [memberLoop, h, ih]; omega

/-- One group row advances the step counter by `1 + 1 + |members|`. -/
theorem processRow_step (tG tIG : String) (rootId total : Nat)
    (s : DriveState) (step : Nat) (g : String) (members : List String) :
    (processRow tG tIG rootId total s step g members).step =
      step + 2 + members.length := by
  unfold processRow
  cases hfc : findOrCreateFolder s rootId (groupFolderName g) with
  | mk folder rest =>
      cases h : findInFolder rest.1 folder.fid (groupSheetName g) with
      | none => simp [h, memberLoop_step]
      | some ex => simp [h, memberLoop_step]

/-- The member loop's state, calls, results and final step do not depend on
the progress total. -/
theorem memberLoop_total_irrel (tIG : String) (fid : Nat) (g : String)
    (total total' : Nat) (s : DriveState) (step : Nat) (ms : List String) :
    (memberLoop tIG fid g total s step ms).state =
      (memberLoop tIG fid g total' s step ms).state ∧
    (memberLoop tIG fid g total s step ms).calls =
      (memberLoop tIG fid g total' s step ms).calls ∧
    (memberLoop tIG fid g total s step ms).results =
      (memberLoop tIG fid g total' s step ms).results ∧
    (memberLoop tIG fid g total s step ms).step =
      (memberLoop tIG fid g total' s step ms).step := by
  induction ms generalizing s step with
  | nil => exact ⟨rfl, rfl, rfl, rfl⟩
  | cons m rest ih =>
      cases h : findInFolder s fid (contribSheetName m) with
      | none =>
          obtain ⟨h1, h2, h3, h4⟩ := ih
            (copySheetCall s fid (contribSheetName m)).2 (step + 1)
          simp [memberLoop, h, h1, h2, h3, h4]
      | some ex =>
          obtain ⟨h1, h2, h3, h4⟩ := ih s (step + 1)
          simp [memberLoop, h, h1, h2, h3, h4]

/-- One row's state, calls, results and final step do not depend on the
progress total. -/
theorem processRow_total_irrel (tG tIG : String) (rootId total total' : Nat)
    (s : DriveState) (step : Nat) (g : String) (members : List String) :
    (processRow tG tIG rootId total s step g members).state =
      (processRow tG tIG rootId total' s step g members).state ∧
    (processRow tG tIG rootId total s step g members).calls =
      (processRow tG tIG rootId total' s step g members).calls ∧
    (processRow tG tIG rootId total s step g members).results =
      (processRow tG tIG rootId total' s step g members).results ∧
    (processRow tG tIG rootId total s step g members).step =
      (processRow tG tIG rootId total' s step g members).step := by
  unfold processRow
  cases hfc : findOrCreateFolder s rootId (groupFolderName g) with
  | mk folder rest =>
      cases h : findInFolder rest.1 folder.fid (groupSheetName g) with
      | none =>
          obtain ⟨h1, h2, h3, h4⟩ := memberLoop_total_irrel tIG folder.fid g
            total total'
            (copySheetCall rest.1 folder.fid (groupSheetName g)).2 (step + 2)
            members
          simp [h, h1, h2, h3, h4]
      | some ex =>
          obtain ⟨h1, h2, h3, h4⟩ := memberLoop_total_irrel tIG folder.fid g
            total total' rest.1 (step + 2) members
          simp [h, h1, h2, h3, h4]

/-- Without cancellation the groups row loop never stops, polls once per
row, and advances the step counter by the total work of its rows. -/
theorem groupsLoop_none_spec (tG tIG : String) (rootId total : Nat)
    (s : DriveState) (step i : Nat) (rows : List (String × List String)) :
    (groupsLoop tG tIG rootId total none s step i rows).stopped = false ∧
    (groupsLoop tG tIG rootId total none s step i rows).next = i + rows.length ∧
    (groupsLoop tG tIG rootId total none s step i rows).step =
      step + rowsWork rows := by
  induction rows generalizing s step i with
  | nil => exact ⟨rfl, rfl, by simp [groupsLoop, rowsWork]⟩
  | cons r rest ih =>
      obtain ⟨g, members⟩ := r
      obtain ⟨h1, h2, h3⟩ := ih
        (processRow tG tIG rootId total s step g members).state
        (processRow tG tIG rootId total s step g members).step (i + 1)
      have hps := processRow_step tG tIG rootId total s step g members
      refine ⟨by simp [groupsLoop, cancelHit, h1], ?_, ?_⟩
      · simp [groupsLoop, cancelHit, h2]
        omega
      · simp only [groupsLoop, cancelHit]
        simp only [Bool.false_eq_true, if_false]
        rw [h3, hps, rowsWork_cons]
        simp only []
        omega

/-- Without cancellation the solo loop never stops, polls once per name,
and advances the step counter by the name count. -/
theorem soloLoop_none_spec (tI : String) (fid total : Nat) (s : DriveState)
    (step i : Nat) (solos : List String) :
    (soloLoop tI fid total none s step i solos).stopped = false ∧
    (soloLoop tI fid total none s step i solos).next = i + solos.length ∧
    (soloLoop tI fid total none s step i solos).step = step + solos.length := by
  induction solos generalizing s step i with
  | nil => exact ⟨rfl, rfl, rfl⟩
  | cons n rest ih =>
      cases h : findInFolder s fid (feedbackSheetName n) with
      | none =>
          obtain ⟨h1, h2, h3⟩ := ih
            (copySheetCall s fid (feedbackSheetName n)).2 (step + 1) (i + 1)
          refine ⟨by simp [soloLoop, cancelHit, h, h1], ?_, ?_⟩
          · simp [soloLoop, cancelHit, h, h2]; omega
          · simp [soloLoop, cancelHit, h, h3]; omega
      | some ex =>
          obtain ⟨h1, h2, h3⟩ := ih s (step + 1) (i + 1)
          refine ⟨by simp [soloLoop, cancelHit, h, h1], ?_, ?_⟩
          · simp [soloLoop, cancelHit, h, h2]; omega
          · simp [soloLoop, cancelHit, h, h3]; omega

/-- Without cancellation the individuals name loop never stops. -/
theorem indivLoop_none_spec (tI : String) (fid link total : Nat)
    (s : DriveState) (i : Nat) (names : List String) :
    (indivLoop tI fid link total none s i names).stopped = false := by
  induction names generalizing s i with
  | nil => rfl
  | cons n rest ih =>
      cases h : findInFolder s fid (feedbackSheetName n) with
      | none => simp [indivLoop, cancelHit, h, ih]
      | some ex => simp [indivLoop, cancelHit, h, ih]

/-- The groups row loop's state, calls, results, final step, next poll
index and stop flag do not depend on the progress total. -/
theorem groupsLoop_total_irrel (tG tIG : String) (rootId total total' : Nat)
    (cancel : Option Nat) (s : DriveState) (step i : Nat)
    (rows : List (String × List String)) :
    (groupsLoop tG tIG rootId total cancel s step i rows).state =
      (groupsLoop tG tIG rootId total' cancel s step i rows).state ∧
    (groupsLoop tG tIG rootId total cancel s step i rows).calls =
      (groupsLoop tG tIG rootId total' cancel s step i rows).calls ∧
    (groupsLoop tG tIG rootId total cancel s step i rows).results =
      (groupsLoop tG tIG rootId total' cancel s step i rows).results ∧
    (groupsLoop tG tIG rootId total cancel s step i rows).step =
      (groupsLoop tG tIG rootId total' cancel s step i rows).step ∧
    (groupsLoop tG tIG rootId total cancel s step i rows).next =
      (groupsLoop tG tIG rootId total' cancel s step i rows).next ∧
    (groupsLoop tG tIG rootId total cancel s step i rows).stopped =
      (groupsLoop tG tIG rootId total' cancel s step i rows).stopped := by
  induction rows generalizing s step i with
  | nil => exact ⟨rfl, rfl, rfl, rfl, rfl, rfl⟩
  | cons r rest ih =>
      obtain ⟨g, members⟩ := r
      by_cases hc : cancelHit cancel i = true
      · simp [groupsLoop, hc]
      · obtain ⟨p1, p2, p3, p4⟩ :=
          processRow_total_irrel tG tIG rootId total total' s step g members
        obtain ⟨h1, h2, h3, h4, h5, h6⟩ := ih
          (processRow tG tIG rootId total' s step g members).state
          (processRow tG tIG rootId total' s step g members).step (i + 1)
        simp [groupsLoop, hc, p1, p2, p3, p4, h1, h2, h3, h4, h5, h6]

/-- The solo loop's state, calls, results, final step, next poll index and
stop flag do not depend on the progress total. -/
theorem soloLoop_total_irrel (tI : String) (fid total total' : Nat)
    (cancel : Option Nat) (s : DriveState) (step i : Nat)
    (solos : List String) :
    (soloLoop tI fid total cancel s step i solos).state =
      (soloLoop tI fid total' cancel s step i solos).state ∧
    (soloLoop tI fid total cancel s step i solos).calls =
      (soloLoop tI fid total' cancel s step i solos).calls ∧
    (soloLoop tI fid total cancel s step i solos).results =
      (soloLoop tI fid total' cancel s step i solos).results ∧
    (soloLoop tI fid total cancel s step i solos).stopped =
      (soloLoop tI fid total' cancel s step i solos).stopped := by
  induction solos generalizing s step i with
  | nil => exact ⟨rfl, rfl, rfl, rfl⟩
  | cons n rest ih =>
      by_cases hc : cancelHit cancel i = true
      · simp [soloLoop, hc]
      · cases h : findInFolder s fid (feedbackSheetName n) with
        | none =>
            obtain ⟨h1, h2, h3, h4⟩ := ih
              (copySheetCall s fid (feedbackSheetName n)).2 (step + 1) (i + 1)
            simp [soloLoop, hc, h, h1, h2, h3, h4]
        | some ex =>
            obtain ⟨h1, h2, h3, h4⟩ := ih s (step + 1) (i + 1)
            simp [soloLoop, hc, h, h1, h2, h3, h4]

/-- The mixed worker's row loop is the groups worker's row loop over the
rows with more than one member: skipped rows touch nothing — no poll, no
state change, no record. -/
theorem mixedGroupsLoop_eq_filter (tG tIG : String) (rootId total : Nat)
    (cancel : Option Nat) (s : DriveState) (step i : Nat)
    (rows : List (String × List String)) :
    mixedGroupsLoop tG tIG rootId total cancel s step i rows =
      groupsLoop tG tIG rootId total cancel s step i (rows.filter isGroupRow) := by
  induction rows generalizing s step i with
  | nil => rfl
  | cons r rest ih =>
      obtain ⟨g, members⟩ := r
      by_cases hm : members.length ≤ 1
      · have hf : isGroupRow (g, members) = false := by
          simp [isGroupRow]; omega
        rw [List.filter_cons_of_neg (by simp [hf])]
        simp only [mixedGroupsLoop, if_pos hm]
        exact ih s step i
      · have hf : isGroupRow (g, members) = true := by
          simp [isGroupRow]; omega
        rw [List.filter_cons_of_pos (by simp [hf])]
        simp only [mixedGroupsLoop, groupsLoop, if_neg hm]
        by_cases hc : cancelHit cancel i = true
        · simp [hc]
        · simp only [Bool.not_eq_true] at hc
          simp [hc, ih]

/-- C4: the mixed worker partitions the parsed roster by member count —
rows with more than one member form the group sub-roster, kept in roster
order (a sublist), and each single-member row contributes its one member as
a solo name.  With no solo names the whole run is literally the groups
worker (§4.3) on the group sub-roster: no Individuals folder call, record
or solo work exists.  With solo names the run decomposes as the groups
worker's phase on the group sub-roster, then the get-or-create of the
`"Individuals"` subfolder with its record, then the solo loop — so all
group rows precede any solo work.  The precomputed total equals
`Σ over group rows (1 + 1 + |members|) + |solo names|`, and on
`[("1", ["A","B"]), ("2", ["C"])]` the split is one group row, solo `"C"`,
total `5`. -/
theorem C4_mixed_partition (rows : List (String × List String))
    (s0 : DriveState) (rootId : Nat) (tG tIG tI : String) :
    List.Sublist (mixedGroupsRows rows) rows ∧
    (∀ r ∈ mixedGroupsRows rows, 1 < r.2.length) ∧
    (∀ g x, (g, [x]) ∈ rows → x ∈ soloNamesOf rows) ∧
    (soloNamesOf rows = [] →
      runMixed s0 rootId tG tIG tI rows (soloNamesOf rows) none =
        runGroups s0 rootId tG tIG (mixedGroupsRows rows) none) ∧
    (∀ solos : List String, solos ≠ [] →
      (runMixed s0 rootId tG tIG tI rows solos none).state =
        (soloLoop tI
          (getOrCreateSubfolder
            (runGroups s0 rootId tG tIG (mixedGroupsRows rows) none).state
            rootId "Individuals").1.fid
          (mixedTotal rows solos) none
          (getOrCreateSubfolder
            (runGroups s0 rootId tG tIG (mixedGroupsRows rows) none).state
            rootId "Individuals").2.1
          (rowsWork (mixedGroupsRows rows)) (1 + (mixedGroupsRows rows).length)
          solos).state ∧
      (runMixed s0 rootId tG tIG tI rows solos none).calls =
        (runGroups s0 rootId tG tIG (mixedGroupsRows rows) none).calls ++
        (getOrCreateSubfolder
          (runGroups s0 rootId tG tIG (mixedGroupsRows rows) none).state
          rootId "Individuals").2.2 ++
        (soloLoop tI
          (getOrCreateSubfolder
            (runGroups s0 rootId tG tIG (mixedGroupsRows rows) none).state
            rootId "Individuals").1.fid
          (mixedTotal rows solos) none
          (getOrCreateSubfolder
            (runGroups s0 rootId tG tIG (mixedGroupsRows rows) none).state
            rootId "Individuals").2.1
          (rowsWork (mixedGroupsRows rows)) (1 + (mixedGroupsRows rows).length)
          solos).calls ∧
      (runMixed s0 rootId tG tIG tI rows solos none).results =
        (runGroups s0 rootId tG tIG (mixedGroupsRows rows) none).results ++
        ⟨.individuals_folder, none, none,
          (getOrCreateSubfolder
            (runGroups s0 rootId tG tIG (mixedGroupsRows rows) none).state
            rootId "Individuals").1.fid, none⟩ ::
        (soloLoop tI
          (getOrCreateSubfolder
            (runGroups s0 rootId tG tIG (mixedGroupsRows rows) none).state
            rootId "Individuals").1.fid
          (mixedTotal rows solos) none
          (getOrCreateSubfolder
            (runGroups s0 rootId tG tIG (mixedGroupsRows rows) none).state
            rootId "Individuals").2.1
          (rowsWork (mixedGroupsRows rows)) (1 + (mixedGroupsRows rows).length)
          solos).results ∧
      (runMixed s0 rootId tG tIG tI rows solos none).status = .completed) ∧
    (∀ solos : List String, mixedTotal rows solos =
      ((rows.filter isGroupRow).map (fun r => 1 + 1 + r.2.length)).sum +
        solos.length) ∧
    mixedGroupsRows [("1", ["A", "B"]), ("2", ["C"])] = [("1", ["A", "B"])] ∧
    soloNamesOf [("1", ["A", "B"]), ("2", ["C"])] = ["C"] ∧
    mixedTotal [("1", ["A", "B"]), ("2", ["C"])] ["C"] = 5 := by
  refine ⟨List.filter_sublist rows, ?_, ?_, ?_, ?_, ?_, by decide, by decide,
    by decide⟩
  · intro r hr
    rw [mixedGroupsRows, List.mem_filter] at hr
    have := hr.2
    simpa [isGroupRow] using this
  · intro g x hx
    rw [soloNamesOf, List.mem_filterMap]
    exact ⟨(g, [x]), hx, rfl⟩
  · intro hs
    have hstop := (groupsLoop_none_spec tG tIG rootId
      (mixedTotal rows []) s0 0 1 (rows.filter isGroupRow)).1
    have hstop2 := (groupsLoop_none_spec tG tIG rootId
      (rowsWork (rows.filter isGroupRow)) s0 0 1 (rows.filter isGroupRow)).1
    simp only [runMixed, runGroups, mixedGroupsLoop_eq_filter,
      mixedGroupsRows, hs, hstop, hstop2, Bool.false_eq_true, if_false,
      List.isEmpty_nil, if_true]
    rfl
  · intro solos hsol
    have hfe := mixedGroupsLoop_eq_filter tG tIG rootId
      (mixedTotal rows solos) none s0 0 1 rows
    obtain ⟨hstop, hnext, hstep⟩ := groupsLoop_none_spec tG tIG rootId
      (mixedTotal rows solos) s0 0 1 (rows.filter isGroupRow)
    obtain ⟨i1, i2, i3, i4, i5, i6⟩ := groupsLoop_total_irrel tG tIG rootId
      (mixedTotal rows solos) (rowsWork (rows.filter isGroupRow)) none s0 0 1
      (rows.filter isGroupRow)
    have hie : solos.isEmpty = false := by
      cases solos with
      | nil => exact absurd rfl hsol
      | cons a l => rfl
    refine ⟨?_, ?_, ?_, ?_⟩ <;>
      simp only [runMixed, runGroups, mixedGroupsRows, hfe, hstop, hie,
        Bool.false_eq_true, if_false, hnext, hstep, i1, i2, i3,
        Nat.zero_add] <;>
      simp [soloLoop_none_spec]
  · intro solos
    rw [mixedTotal, rowsWork_eq_sum]

/-- C4, witness: a roster with one group row and one solo row. -/
theorem C4_witness :
    soloNamesOf [("1", ["A", "B"])] = [] ∧
    runMixed ⟨[], 1⟩ 0 "TG" "TI" "SI" [("1", ["A", "B"])]
        (soloNamesOf [("1", ["A", "B"])]) none =
      runGroups ⟨[], 1⟩ 0 "TG" "TI" (mixedGroupsRows [("1", ["A", "B"])]) none := by
  refine ⟨by decide, ?_⟩
  exact (C4_mixed_partition [("1", ["A", "B"])] ⟨[], 1⟩ 0 "TG" "TI" "SI").2.2.2.1
    (by decide)

/-- A progress record built by `_update_progress` with `step ≤ total` is
valid. -/
theorem mkProgress_ok {step total : Nat} (h : step ≤ total) :
    ProgressOK (mkProgress step total) := ⟨h, rfl⟩

/-- The submission-time record `{current := 0, percent := 0.0}` satisfies
the percent formula. -/
theorem initProgress_ok (total : Nat) : ProgressOK (initProgress total) := by
  refine ⟨Nat.zero_le total, ?_⟩
  show (0 : ℚ) = pctOf 0 total
  simp [pctOf, pyRound2, qMulNat, roundHalfEven]

/-- Every update of the member loop is valid when the incoming step plus
the remaining members fits the total. -/
theorem memberLoop_updates_ok (tIG : String) (fid : Nat) (g : String)
    (total : Nat) (s : DriveState) (step : Nat) (ms : List String)
    (h : step + ms.length ≤ total) :
    ∀ p ∈ (memberLoop tIG fid g total s step ms).updates, ProgressOK p := by
  induction ms generalizing s step with
  | nil => intro p hp; simp [memberLoop] at hp
  | cons m rest ih =>
      intro p hp
      cases hf : findInFolder s fid (contribSheetName m) with
      | none =>
          simp only [memberLoop, hf] at hp
          rcases List.mem_cons.mp hp with hh | ht
          · exact hh ▸ mkProgress_ok (by simp at h; omega)
          · exact ih _ (step + 1) (by simp at h ⊢; omega) p ht
      | some ex =>
          simp only [memberLoop, hf] at hp
          rcases List.mem_cons.mp hp with hh | ht
          · exact hh ▸ mkProgress_ok (by simp at h; omega)
          · exact ih s (step + 1) (by simp at h ⊢; omega) p ht

/-- Every update of one group row is valid when the incoming step plus the
row's work fits the total. -/
theorem processRow_updates_ok (tG tIG : String) (rootId total : Nat)
    (s : DriveState) (step : Nat) (g : String) (members : List String)
    (h : step + 2 + members.length ≤ total) :
    ∀ p ∈ (processRow tG tIG rootId total s step g members).updates,
      ProgressOK p := by
  intro p hp
  unfold processRow at hp
  cases hfc : findOrCreateFolder s rootId (groupFolderName g) with
  | mk folder rest =>
      rw [hfc] at hp
      cases hf : findInFolder rest.1 folder.fid (groupSheetName g) with
      | none =>
          simp only [hf] at hp
          rcases List.mem_cons.mp hp with hh | hp2
          · exact hh ▸ mkProgress_ok (by omega)
          rcases List.mem_cons.mp hp2 with hh | ht
          · exact hh ▸ mkProgress_ok (by omega)
          · exact memberLoop_updates_ok tIG folder.fid g total _ (step + 2)
              members (by omega) p ht
      | some ex =>
          simp only [hf] at hp
          rcases List.mem_cons.mp hp with hh | hp2
          · exact hh ▸ mkProgress_ok (by omega)
          rcases List.mem_cons.mp hp2 with hh | ht
          · exact hh ▸ mkProgress_ok (by omega)
          · exact memberLoop_updates_ok tIG folder.fid g total _ (step + 2)
              members (by omega) p ht

/-- The groups row loop never advances the step counter beyond the
remaining work, whatever the cancellation flag does. -/
theorem groupsLoop_step_le (tG tIG : String) (rootId total : Nat)
    (cancel : Option Nat) (s : DriveState) (step i : Nat)
    (rows : List (String × List String)) :
    (groupsLoop tG tIG rootId total cancel s step i rows).step ≤
      step + rowsWork rows := by
  induction rows generalizing s step i with
  | nil => simp [groupsLoop]
  | cons r rest ih =>
      obtain ⟨g, members⟩ := r
      by_cases hc : cancelHit cancel i = true
      · simp [groupsLoop, hc]
      · have hx := ih (processRow tG tIG rootId total s step g members).state
          (processRow tG tIG rootId total s step g members).step (i + 1)
        have hps := processRow_step tG tIG rootId total s step g members
        have hrw : rowsWork ((g, members) :: rest) =
            1 + 1 + members.length + rowsWork rest := rfl
        simp only [groupsLoop, hc, Bool.false_eq_true, if_false]
        rw [hrw]
        omega

/-- Every update of the groups row loop is valid, for any cancellation
behaviour, when the incoming step plus the remaining work fits the total. -/
theorem groupsLoop_updates_ok (tG tIG : String) (rootId total : Nat)
    (cancel : Option Nat) (s : DriveState) (step i : Nat)
    (rows : List (String × List String))
    (h : step + rowsWork rows ≤ total) :
    ∀ p ∈ (groupsLoop tG tIG rootId total cancel s step i rows).updates,
      ProgressOK p := by
  induction rows generalizing s step i with
  | nil => intro p hp; simp [groupsLoop] at hp
  | cons r rest ih =>
      obtain ⟨g, members⟩ := r
      intro p hp
      by_cases hc : cancelHit cancel i = true
      · simp [groupsLoop, hc] at hp
      · rw [rowsWork_cons] at h
        simp only [] at h
        simp only [groupsLoop, hc, Bool.false_eq_true, if_false] at hp
        rcases List.mem_append.mp hp with hl | hr
        · exact processRow_updates_ok tG tIG rootId total s step g members
            (by omega) p hl
        · refine ih (processRow tG tIG rootId total s step g members).state
            (processRow tG tIG rootId total s step g members).step (i + 1)
            ?_ p hr
          rw [processRow_step]
          omega

/-- Every update of the solo loop is valid, for any cancellation
behaviour, when the incoming step plus the remaining names fits the
total. -/
theorem soloLoop_updates_ok (tI : String) (fid total : Nat)
    (cancel : Option Nat) (s : DriveState) (step i : Nat)
    (solos : List String) (h : step + solos.length ≤ total) :
    ∀ p ∈ (soloLoop tI fid total cancel s step i solos).updates,
      ProgressOK p := by
  induction solos generalizing s step i with
  | nil => intro p hp; simp [soloLoop] at hp
  | cons n rest ih =>
      intro p hp
      by_cases hc : cancelHit cancel i = true
      · simp [soloLoop, hc] at hp
      · cases hf : findInFolder s fid (feedbackSheetName n) with
        | none =>
            simp only [soloLoop, hc, Bool.false_eq_true, if_false, hf] at hp
            rcases List.mem_cons.mp hp with hh | ht
            · exact hh ▸ mkProgress_ok (by simp at h; omega)
            · exact ih _ (step + 1) (i + 1) (by simp at h ⊢; omega) p ht
        | some ex =>
            simp only [soloLoop, hc, Bool.false_eq_true, if_false, hf] at hp
            rcases List.mem_cons.mp hp with hh | ht
            · exact hh ▸ mkProgress_ok (by simp at h; omega)
            · exact ih s (step + 1) (i + 1) (by simp at h ⊢; omega) p ht

/-- Every update of the individuals name loop is valid (its current is the
1-based name index, bounded by the total name count), for any cancellation
behaviour. -/
theorem indivLoop_updates_ok (tI : String) (fid link total : Nat)
    (cancel : Option Nat) (s : DriveState) (i : Nat) (names : List String)
    (h : i + names.length ≤ total + 1) :
    ∀ p ∈ (indivLoop tI fid link total cancel s i names).updates,
      ProgressOK p := by
  induction names generalizing s i with
  | nil => intro p hp; simp [indivLoop] at hp
  | cons n rest ih =>
      intro p hp
      by_cases hc : cancelHit cancel i = true
      · simp [indivLoop, hc] at hp
      · cases hf : findInFolder s fid (feedbackSheetName n) with
        | some ex =>
            simp only [indivLoop, hc, Bool.false_eq_true, if_false, hf] at hp
            rcases List.mem_cons.mp hp with hh | ht
            · exact hh ▸ mkProgress_ok (by simp at h; omega)
            · exact ih s (i + 1) (by simp at h ⊢; omega) p ht
        | none =>
            simp only [indivLoop, hc, Bool.false_eq_true, if_false, hf] at hp
            rcases List.mem_cons.mp hp with hh | ht
            · exact hh ▸ mkProgress_ok (by simp at h; omega)
            · exact ih _ (i + 1) (by simp at h ⊢; omega) p ht

/-- C3: every progress record any of the three workers publishes — and the
initial record stored at submission — satisfies `0 ≤ current ≤ total` and
`percent = round(current*100/max(1,total), 2)`, for every roster, drive
state and cancellation behaviour. -/
theorem C3_progress_invariant :
    (∀ total : Nat, ProgressOK (initProgress total)) ∧
    (∀ (s0 : DriveState) (rootId : Nat) (tI : String) (names : List String)
      (cancel : Option Nat),
      ∀ p ∈ (runIndividuals s0 rootId tI names cancel).updates, ProgressOK p) ∧
    (∀ (s0 : DriveState) (rootId : Nat) (tG tIG : String)
      (rows : List (String × List String)) (cancel : Option Nat),
      ∀ p ∈ (runGroups s0 rootId tG tIG rows cancel).updates, ProgressOK p) ∧
    (∀ (s0 : DriveState) (rootId : Nat) (tG tIG tI : String)
      (rows : List (String × List String)) (solos : List String)
      (cancel : Option Nat),
      ∀ p ∈ (runMixed s0 rootId tG tIG tI rows solos cancel).updates,
        ProgressOK p) := by
  refine ⟨initProgress_ok, ?_, ?_, ?_⟩
  · intro s0 rootId tI names cancel p hp
    simp only [runIndividuals] at hp
    exact indivLoop_updates_ok tI _ _ names.length cancel _ 1 names
      (by omega) p hp
  · intro s0 rootId tG tIG rows cancel p hp
    simp only [runGroups] at hp
    exact groupsLoop_updates_ok tG tIG rootId (rowsWork rows) cancel s0 0 1
      rows (by omega) p hp
  · intro s0 rootId tG tIG tI rows solos cancel p hp
    simp only [runMixed, mixedGroupsLoop_eq_filter] at hp
    have heq : mixedTotal rows solos =
        rowsWork (rows.filter isGroupRow) + solos.length := rfl
    have hb1 : 0 + rowsWork (rows.filter isGroupRow) ≤
        mixedTotal rows solos := by omega
    by_cases hstop : (groupsLoop tG tIG rootId (mixedTotal rows solos) cancel
        s0 0 1 (rows.filter isGroupRow)).stopped = true
    · simp only [hstop, if_true] at hp
      exact groupsLoop_updates_ok tG tIG rootId (mixedTotal rows solos)
        cancel s0 0 1 (rows.filter isGroupRow) hb1 p hp
    · simp only [hstop, Bool.false_eq_true, if_false] at hp
      by_cases hie : solos.isEmpty = true
      · simp only [hie, if_true] at hp
        exact groupsLoop_updates_ok tG tIG rootId (mixedTotal rows solos)
          cancel s0 0 1 (rows.filter isGroupRow) hb1 p hp
      · simp only [hie, Bool.false_eq_true, if_false] at hp
        rcases List.mem_append.mp hp with hl | hr
        · exact groupsLoop_updates_ok tG tIG rootId (mixedTotal rows solos)
            cancel s0 0 1 (rows.filter isGroupRow) hb1 p hl
        · have hle := groupsLoop_step_le tG tIG rootId (mixedTotal rows solos)
            cancel s0 0 1 (rows.filter isGroupRow)
          exact soloLoop_updates_ok tI _ (mixedTotal rows solos) cancel _
            (groupsLoop tG tIG rootId (mixedTotal rows solos) cancel s0 0 1
              (rows.filter isGroupRow)).step _ solos (by omega) p hr

/-- C3, witness: the published update of a one-name individuals run and
the initial record. -/
theorem C3_witness :
    ProgressOK (initProgress 3) ∧
    (mkProgress 1 1 ∈
      (runIndividuals ⟨[], 1⟩ 0 "SI" ["A"] none).updates) ∧
    ProgressOK (mkProgress 1 1) := by
  refine ⟨C3_progress_invariant.1 3, by decide, ?_⟩
  exact C3_progress_invariant.2.1 ⟨[], 1⟩ 0 "SI" ["A"] none (mkProgress 1 1)
    (by decide)

/-- The never-set flag reads false at every poll. -/
theorem cancelHit_none (i : Nat) : cancelHit none i = false := rfl

/-- A run of the individuals name loop whose flag trips at poll `M` does
exactly what an uncancelled run over the first `M - i` names does (the
progress total may differ freely; updates are not compared), and it reports
a stop exactly when some poll was reached at or beyond `M`. -/
theorem indivLoop_cancel_spec (tI : String) (fid link total total' M : Nat)
    (s : DriveState) (i : Nat) (names : List String) :
    (indivLoop tI fid link total (some M) s i names).state =
      (indivLoop tI fid link total' none s i (names.take (M - i))).state ∧
    (indivLoop tI fid link total (some M) s i names).calls =
      (indivLoop tI fid link total' none s i (names.take (M - i))).calls ∧
    (indivLoop tI fid link total (some M) s i names).results =
      (indivLoop tI fid link total' none s i (names.take (M - i))).results ∧
    ((indivLoop tI fid link total (some M) s i names).stopped = true ↔
      (names ≠ [] ∧ M < i + names.length)) := by
  induction names generalizing s i with
  | nil =>
      refine ⟨by simp [indivLoop], by simp [indivLoop], by simp [indivLoop], ?_⟩
      simp [indivLoop]
  | cons n rest ih =>
      by_cases hMi : M ≤ i
      · have hc : cancelHit (some M) i = true := by
          simp [cancelHit]; omega
        have ht : M - i = 0 := by omega
        refine ⟨by simp [indivLoop, hc, ht], by simp [indivLoop, hc, ht],
          by simp [indivLoop, hc, ht], ?_⟩
        simp [indivLoop, hc, ht]
        omega
      · have hc : cancelHit (some M) i = false := by
          simp [cancelHit]; omega
        have ht : M - i = (M - (i + 1)) + 1 := by omega
        rw [ht, List.take_succ_cons]
        cases hf : findInFolder s fid (feedbackSheetName n) with
        | some ex =>
            obtain ⟨h1, h2, h3, h4⟩ := ih s (i + 1)
            refine ⟨by simp [indivLoop, hc, cancelHit_none, hf, h1],
              by simp [indivLoop, hc, cancelHit_none, hf, h2],
              by simp [indivLoop, hc, cancelHit_none, hf, h3], ?_⟩
            simp only [indivLoop, hc, Bool.false_eq_true, if_false, hf]
            simp only [h4, List.length_cons]
            constructor
            · rintro ⟨_, hlt⟩
              exact ⟨List.cons_ne_nil n rest, by omega⟩
            · rintro ⟨_, hlt⟩
              rcases rest with _ | ⟨a, l⟩
              · simp at hlt ⊢; omega
              · exact ⟨List.cons_ne_nil a l, by simp at hlt ⊢; omega⟩
        | none =>
            obtain ⟨h1, h2, h3, h4⟩ := ih
              (copySheetCall s fid (feedbackSheetName n)).2 (i + 1)
            refine ⟨by simp [indivLoop, hc, cancelHit_none, hf, h1],
              by simp [indivLoop, hc, cancelHit_none, hf, h2],
              by simp [indivLoop, hc, cancelHit_none, hf, h3], ?_⟩
            simp only [indivLoop, hc, Bool.false_eq_true, if_false, hf]
            simp only [h4, List.length_cons]
            constructor
            · rintro ⟨_, hlt⟩
              exact ⟨List.cons_ne_nil n rest, by omega⟩
            · rintro ⟨_, hlt⟩
              rcases rest with _ | ⟨a, l⟩
              · simp at hlt ⊢; omega
              · exact ⟨List.cons_ne_nil a l, by simp at hlt ⊢; omega⟩

/-- A run of the groups row loop whose flag trips at poll `M` does exactly
what an uncancelled run over the first `M - i` rows does (for any progress
totals; updates are not compared), and it stops exactly when some poll at
or beyond `M` was reached. -/
theorem groupsLoop_cancel_spec (tG tIG : String) (rootId total total' M : Nat)
    (s : DriveState) (step i : Nat) (rows : List (String × List String)) :
    (groupsLoop tG tIG rootId total (some M) s step i rows).state =
      (groupsLoop tG tIG rootId total' none s step i (rows.take (M - i))).state ∧
    (groupsLoop tG tIG rootId total (some M) s step i rows).calls =
      (groupsLoop tG tIG rootId total' none s step i (rows.take (M - i))).calls ∧
    (groupsLoop tG tIG rootId total (some M) s step i rows).results =
      (groupsLoop tG tIG rootId total' none s step i (rows.take (M - i))).results ∧
    (groupsLoop tG tIG rootId total (some M) s step i rows).step =
      (groupsLoop tG tIG rootId total' none s step i (rows.take (M - i))).step ∧
    (groupsLoop tG tIG rootId total (some M) s step i rows).next =
      (groupsLoop tG tIG rootId total' none s step i (rows.take (M - i))).next ∧
    ((groupsLoop tG tIG rootId total (some M) s step i rows).stopped = true ↔
      (rows ≠ [] ∧ M < i + rows.length)) := by
  induction rows generalizing s step i with
  | nil =>
      refine ⟨by simp [groupsLoop], by simp [groupsLoop], by simp [groupsLoop],
        by simp [groupsLoop], by simp [groupsLoop], ?_⟩
      simp [groupsLoop]
  | cons r rest ih =>
      obtain ⟨g, members⟩ := r
      by_cases hMi : M ≤ i
      · have hc : cancelHit (some M) i = true := by
          simp [cancelHit]; omega
        have ht : M - i = 0 := by omega
        refine ⟨by simp [groupsLoop, hc, ht], by simp [groupsLoop, hc, ht],
          by simp [groupsLoop, hc, ht], by simp [groupsLoop, hc, ht],
          by simp [groupsLoop, hc, ht], ?_⟩
        simp [groupsLoop, hc, ht]
        omega
      · have hc : cancelHit (some M) i = false := by
          simp [cancelHit]; omega
        have ht : M - i = (M - (i + 1)) + 1 := by omega
        rw [ht, List.take_succ_cons]
        obtain ⟨p1, p2, p3, p4⟩ :=
          processRow_total_irrel tG tIG rootId total total' s step g members
        obtain ⟨h1, h2, h3, h4, h5, h6⟩ := ih
          (processRow tG tIG rootId total' s step g members).state
          (processRow tG tIG rootId total' s step g members).step (i + 1)
        refine ⟨by simp [groupsLoop, hc, cancelHit_none, p1, p4, h1],
          by simp [groupsLoop, hc, cancelHit_none, p1, p2, p4, h2],
          by simp [groupsLoop, hc, cancelHit_none, p1, p3, p4, h3],
          by simp [groupsLoop, hc, cancelHit_none, p1, p4, h4],
          by simp [groupsLoop, hc, cancelHit_none, p1, p4, h5], ?_⟩
        simp only [groupsLoop, hc, Bool.false_eq_true, if_false]
        simp only [p1, p4, h6, List.length_cons]
        constructor
        · rintro ⟨_, hlt⟩
          exact ⟨List.cons_ne_nil (g, members) rest, by omega⟩
        · rintro ⟨_, hlt⟩
          rcases rest with _ | ⟨a, l⟩
          · simp at hlt ⊢; omega
          · exact ⟨List.cons_ne_nil a l, by simp at hlt ⊢; omega⟩

/-- A run of the solo loop whose flag trips at poll `M` does exactly what
an uncancelled run over the first `M - i` names does (for any progress
totals; updates are not compared), and it stops exactly when some poll at
or beyond `M` was reached. -/
theorem soloLoop_cancel_spec (tI : String) (fid total total' M : Nat)
    (s : DriveState) (step i : Nat) (solos : List String) :
    (soloLoop tI fid total (some M) s step i solos).state =
      (soloLoop tI fid total' none s step i (solos.take (M - i))).state ∧
    (soloLoop tI fid total (some M) s step i solos).calls =
      (soloLoop tI fid total' none s step i (solos.take (M - i))).calls ∧
    (soloLoop tI fid total (some M) s step i solos).results =
      (soloLoop tI fid total' none s step i (solos.take (M - i))).results ∧
    ((soloLoop tI fid total (some M) s step i solos).stopped = true ↔
      (solos ≠ [] ∧ M < i + solos.length)) := by
  induction solos generalizing s step i with
  | nil =>
      refine ⟨by simp [soloLoop], by simp [soloLoop], by simp [soloLoop], ?_⟩
      simp [soloLoop]
  | cons n rest ih =>
      by_cases hMi : M ≤ i
      · have hc : cancelHit (some M) i = true := by
          simp [cancelHit]; omega
        have ht : M - i = 0 := by omega
        refine ⟨by simp [soloLoop, hc, ht], by simp [soloLoop, hc, ht],
          by simp [soloLoop, hc, ht], ?_⟩
        simp [soloLoop, hc, ht]
        omega
      · have hc : cancelHit (some M) i = false := by
          simp [cancelHit]; omega
        have ht : M - i = (M - (i + 1)) + 1 := by omega
        rw [ht, List.take_succ_cons]
        cases hf : findInFolder s fid (feedbackSheetName n) with
        | some ex =>
            obtain ⟨h1, h2, h3, h4⟩ := ih s (step + 1) (i + 1)
            refine ⟨by simp [soloLoop, hc, cancelHit_none, hf, h1],
              by simp [soloLoop, hc, cancelHit_none, hf, h2],
              by simp [soloLoop, hc, cancelHit_none, hf, h3], ?_⟩
            simp only [soloLoop, hc, Bool.false_eq_true, if_false, hf]
            simp only [h4, List.length_cons]
            constructor
            · rintro ⟨_, hlt⟩
              exact ⟨List.cons_ne_nil n rest, by omega⟩
            · rintro ⟨_, hlt⟩
              rcases rest with _ | ⟨a, l⟩
              · simp at hlt ⊢; omega
              · exact ⟨List.cons_ne_nil a l, by simp at hlt ⊢; omega⟩
        | none =>
            obtain ⟨h1, h2, h3, h4⟩ := ih
              (copySheetCall s fid (feedbackSheetName n)).2 (step + 1) (i + 1)
            refine ⟨by simp [soloLoop, hc, cancelHit_none, hf, h1],
              by simp [soloLoop, hc, cancelHit_none, hf, h2],
              by simp [soloLoop, hc, cancelHit_none, hf, h3], ?_⟩
            simp only [soloLoop, hc, Bool.false_eq_true, if_false, hf]
            simp only [h4, List.length_cons]
            constructor
            · rintro ⟨_, hlt⟩
              exact ⟨List.cons_ne_nil n rest, by omega⟩
            · rintro ⟨_, hlt⟩
              rcases rest with _ | ⟨a, l⟩
              · simp at hlt ⊢; omega
              · exact ⟨List.cons_ne_nil a l, by simp at hlt ⊢; omega⟩

/-- Elements of a take of a filtered list still satisfy the filter. -/
theorem filter_take_filter (p : String × List String → Bool)
    (l : List (String × List String)) (k : Nat) :
    ((l.filter p).take k).filter p = (l.filter p).take k :=
  List.filter_eq_self.mpr
    (fun _ ha => (List.mem_filter.mp (List.take_subset _ _ ha)).2)

/-- Mixed worker, flag tripping at a group-row poll `N`: the run behaves
exactly like an uncancelled mixed run over the first `N - 1` group rows
with no solos — in particular no Individuals-folder work happens — and
finishes `cancelled`. -/
theorem mixed_cancel_group_phase (s0 : DriveState) (rootId : Nat)
    (tG tIG tI : String) (rows : List (String × List String))
    (solos : List String) (N : Nat) (h1 : 1 ≤ N)
    (h2 : N ≤ (rows.filter isGroupRow).length) :
    (runMixed s0 rootId tG tIG tI rows solos (some N)).status = .cancelled ∧
    (runMixed s0 rootId tG tIG tI rows solos (some N)).state =
      (runMixed s0 rootId tG tIG tI ((rows.filter isGroupRow).take (N - 1))
        [] none).state ∧
    (runMixed s0 rootId tG tIG tI rows solos (some N)).calls =
      (runMixed s0 rootId tG tIG tI ((rows.filter isGroupRow).take (N - 1))
        [] none).calls ∧
    (runMixed s0 rootId tG tIG tI rows solos (some N)).results =
      (runMixed s0 rootId tG tIG tI ((rows.filter isGroupRow).take (N - 1))
        [] none).results := by
  obtain ⟨g1, g2, g3, g4, g5, g6⟩ := groupsLoop_cancel_spec tG tIG rootId
    (mixedTotal rows solos)
    (mixedTotal ((rows.filter isGroupRow).take (N - 1)) []) N s0 0 1
    (rows.filter isGroupRow)
  have hstop : (groupsLoop tG tIG rootId (mixedTotal rows solos) (some N) s0
      0 1 (rows.filter isGroupRow)).stopped = true := by
    refine g6.mpr ⟨?_, by omega⟩
    intro he
    rw [he] at h2
    simp at h2
    omega
  have hstop2 := (groupsLoop_none_spec tG tIG rootId
    (mixedTotal ((rows.filter isGroupRow).take (N - 1)) []) s0 0 1
    ((rows.filter isGroupRow).take (N - 1))).1
  refine ⟨?_, ?_, ?_, ?_⟩ <;>
    simp only [runMixed, mixedGroupsLoop_eq_filter, filter_take_filter,
      hstop, if_true, hstop2, Bool.false_eq_true, if_false,
      List.isEmpty_nil, g1, g2, g3]

/-- Mixed worker, flag tripping at the `k`-th solo poll (`N = G + k` where
`G` counts the group rows): the run behaves exactly like an uncancelled
mixed run over the same rows with only the first `k - 1` solos, except
that when `k = 1` the Individuals-folder get-or-create (with its possible
`createFolder` call and its record) has already happened before the first
solo poll; the run finishes `cancelled`. -/
theorem mixed_cancel_solo_phase (s0 : DriveState) (rootId : Nat)
    (tG tIG tI : String) (rows : List (String × List String))
    (solos : List String) (N : Nat)
    (h1 : (rows.filter isGroupRow).length < N)
    (h2 : N ≤ (rows.filter isGroupRow).length + solos.length) :
    (runMixed s0 rootId tG tIG tI rows solos (some N)).status = .cancelled ∧
    (runMixed s0 rootId tG tIG tI rows solos (some N)).calls =
      (runMixed s0 rootId tG tIG tI rows
        (solos.take (N - (rows.filter isGroupRow).length - 1)) none).calls ++
      (if N - (rows.filter isGroupRow).length = 1 then
        (getOrCreateSubfolder
          (runMixed s0 rootId tG tIG tI rows [] none).state rootId
          "Individuals").2.2
      else []) ∧
    (runMixed s0 rootId tG tIG tI rows solos (some N)).results =
      (runMixed s0 rootId tG tIG tI rows
        (solos.take (N - (rows.filter isGroupRow).length - 1)) none).results ++
      (if N - (rows.filter isGroupRow).length = 1 then
        [⟨.individuals_folder, none, none,
          (getOrCreateSubfolder
            (runMixed s0 rootId tG tIG tI rows [] none).state rootId
            "Individuals").1.fid, none⟩]
      else []) := by
  have hsol : solos ≠ [] := by
    intro he
    rw [he] at h2
    simp at h2
    omega
  have hie : solos.isEmpty = false := by
    cases solos with
    | nil => exact absurd rfl hsol
    | cons a l => rfl
  -- the cancelled run's group phase equals the reference run's group phase
  obtain ⟨g1, g2, g3, g4, g5, g6⟩ := groupsLoop_cancel_spec tG tIG rootId
    (mixedTotal rows solos)
    (mixedTotal rows (solos.take (N - (rows.filter isGroupRow).length - 1)))
    N s0 0 1 (rows.filter isGroupRow)
  have htake : (rows.filter isGroupRow).take (N - 1) =
      rows.filter isGroupRow := List.take_of_length_le (by omega)
  rw [htake] at g1 g2 g3 g4 g5
  have hnostop : (groupsLoop tG tIG rootId (mixedTotal rows solos) (some N)
      s0 0 1 (rows.filter isGroupRow)).stopped = false := by
    cases hb : (groupsLoop tG tIG rootId (mixedTotal rows solos) (some N)
      s0 0 1 (rows.filter isGroupRow)).stopped with
    | false => rfl
    | true =>
        obtain ⟨-, hlt⟩ := g6.mp hb
        omega
  obtain ⟨hs2, hn2, hp2⟩ := groupsLoop_none_spec tG tIG rootId
    (mixedTotal rows (solos.take (N - (rows.filter isGroupRow).length - 1)))
    s0 0 1 (rows.filter isGroupRow)
  -- the io-reference run (no solos) has the same group-phase state
  obtain ⟨i1, i2, i3, i4, i5, i6⟩ := groupsLoop_total_irrel tG tIG rootId
    (mixedTotal rows (solos.take (N - (rows.filter isGroupRow).length - 1)))
    (mixedTotal rows []) none s0 0 1 (rows.filter isGroupRow)
  have hstop0 := (groupsLoop_none_spec tG tIG rootId (mixedTotal rows [])
    s0 0 1 (rows.filter isGroupRow)).1
  -- the solo phase of the cancelled run
  obtain ⟨q1, q2, q3, q4⟩ := soloLoop_cancel_spec tI
    (getOrCreateSubfolder (groupsLoop tG tIG rootId
      (mixedTotal rows (solos.take (N - (rows.filter isGroupRow).length - 1)))
      none s0 0 1 (rows.filter isGroupRow)).state rootId "Individuals").1.fid
    (mixedTotal rows solos)
    (mixedTotal rows (solos.take (N - (rows.filter isGroupRow).length - 1)))
    N
    (getOrCreateSubfolder (groupsLoop tG tIG rootId
      (mixedTotal rows (solos.take (N - (rows.filter isGroupRow).length - 1)))
      none s0 0 1 (rows.filter isGroupRow)).state rootId "Individuals").2.1
    (groupsLoop tG tIG rootId
      (mixedTotal rows (solos.take (N - (rows.filter isGroupRow).length - 1)))
      none s0 0 1 (rows.filter isGroupRow)).step
    (1 + (rows.filter isGroupRow).length) solos
  have hkeq : N - (1 + (rows.filter isGroupRow).length) =
      N - (rows.filter isGroupRow).length - 1 := by omega
  rw [hkeq] at q1 q2 q3
  have hsolstop : (soloLoop tI
      (getOrCreateSubfolder (groupsLoop tG tIG rootId
        (mixedTotal rows (solos.take (N - (rows.filter isGroupRow).length - 1)))
        none s0 0 1 (rows.filter isGroupRow)).state rootId "Individuals").1.fid
      (mixedTotal rows solos) (some N)
      (getOrCreateSubfolder (groupsLoop tG tIG rootId
        (mixedTotal rows (solos.take (N - (rows.filter isGroupRow).length - 1)))
        none s0 0 1 (rows.filter isGroupRow)).state rootId "Individuals").2.1
      (groupsLoop tG tIG rootId
        (mixedTotal rows (solos.take (N - (rows.filter isGroupRow).length - 1)))
        none s0 0 1 (rows.filter isGroupRow)).step
      (1 + (rows.filter isGroupRow).length) solos).stopped = true :=
    q4.mpr ⟨hsol, by omega⟩
  simp only [i1] at q1 q2 q3 hsolstop
  by_cases hk : N - (rows.filter isGroupRow).length = 1
  · -- flag before the very first solo: the reference run takes no solos
    have hz : N - (rows.filter isGroupRow).length - 1 = 0 := by omega
    simp only [hz, List.take_zero] at g1 g2 g3 g4 g5 hn2 q1 q2 q3 hsolstop
    simp only [soloLoop] at q1 q2 q3
    refine ⟨?_, ?_, ?_⟩ <;>
      simp only [hz, List.take_zero, runMixed, mixedGroupsLoop_eq_filter,
        hnostop, hstop0, Bool.false_eq_true, if_false, hie,
        List.isEmpty_nil, if_true, hk, g1, g2, g3, g4, g5, hn2] <;>
      simp [q1, q2, q3, hsolstop, hstop0]
  · have hS : 0 < solos.length := List.length_pos.mpr hsol
    have htkne : solos.take (N - (rows.filter isGroupRow).length - 1) ≠ [] := by
      intro he
      have hlen := congrArg List.length he
      rw [List.length_take] at hlen
      simp only [List.length_nil] at hlen
      omega
    have htkie : (solos.take
        (N - (rows.filter isGroupRow).length - 1)).isEmpty = false := by
      cases hcs : solos.take (N - (rows.filter isGroupRow).length - 1) with
      | nil => exact absurd hcs htkne
      | cons _ _ => rfl
    refine ⟨?_, ?_, ?_⟩ <;>
      simp only [runMixed, mixedGroupsLoop_eq_filter, hnostop, hstop0, hs2,
        Bool.false_eq_true, if_false, hie, htkie, hk, if_false,
        g1, g2, g3, g4, g5, hn2, i1] <;>
      simp [q1, q2, q3, hsolstop]

/-- C2, counterexample: in the mixed worker with roster
`[("1", ["A"])]` (one solo entry, no group rows) and the flag set before
iteration 1 — the first and only iteration, a solo entry — the run still
issues the artifact-creating call `createFolder(root, "Individuals")` and
appends the `individuals_folder` record, because the lazily-created
Individuals subfolder is ensured before the solo loop's first poll.  The
claim demands zero remote mutations for iterations `≥ 1` and `results`
exactly equal to the records of iterations `< 1`, i.e. none. -/
theorem C2_counterexample :
    (runMixed ⟨[], 1⟩ 0 "TG" "TIG" "SI" [("1", ["A"])] ["A"] (some 1)).status =
      .cancelled ∧
    (runMixed ⟨[], 1⟩ 0 "TG" "TIG" "SI" [("1", ["A"])] ["A"] (some 1)).calls =
      [.createFolder 0 "Individuals"] ∧
    (runMixed ⟨[], 1⟩ 0 "TG" "TIG" "SI" [("1", ["A"])] ["A"] (some 1)).results =
      [⟨.individuals_folder, none, none, 1, none⟩] := by
  refine ⟨by decide, by decide, by decide⟩

/-- C2, amended: with the flag first observed set at iteration `N` (a
1-based iteration index within the run's polls), the individuals and
groups workers finish `cancelled` having issued exactly the remote calls
and appended exactly the records of an uncancelled run over the first
`N - 1` iterations (for the individuals worker this includes the
Individuals-folder setup, which precedes every iteration).  The mixed
worker behaves the same over its iterations — group rows first, then solo
entries — except that when the flag is first observed at the very first
solo iteration, the Individuals-subfolder get-or-create (with its possible
`createFolder` call) and its `individuals_folder` record have already
happened before that poll and are additionally present. -/
theorem C2_cancellation_amended :
    (∀ (s0 : DriveState) (rootId : Nat) (tI : String) (names : List String)
      (N : Nat), 1 ≤ N → N ≤ names.length →
      (runIndividuals s0 rootId tI names (some N)).status = .cancelled ∧
      (runIndividuals s0 rootId tI names (some N)).state =
        (runIndividuals s0 rootId tI (names.take (N - 1)) none).state ∧
      (runIndividuals s0 rootId tI names (some N)).calls =
        (runIndividuals s0 rootId tI (names.take (N - 1)) none).calls ∧
      (runIndividuals s0 rootId tI names (some N)).results =
        (runIndividuals s0 rootId tI (names.take (N - 1)) none).results) ∧
    (∀ (s0 : DriveState) (rootId : Nat) (tG tIG : String)
      (rows : List (String × List String)) (N : Nat),
      1 ≤ N → N ≤ rows.length →
      (runGroups s0 rootId tG tIG rows (some N)).status = .cancelled ∧
      (runGroups s0 rootId tG tIG rows (some N)).state =
        (runGroups s0 rootId tG tIG (rows.take (N - 1)) none).state ∧
      (runGroups s0 rootId tG tIG rows (some N)).calls =
        (runGroups s0 rootId tG tIG (rows.take (N - 1)) none).calls ∧
      (runGroups s0 rootId tG tIG rows (some N)).results =
        (runGroups s0 rootId tG tIG (rows.take (N - 1)) none).results) ∧
    (∀ (s0 : DriveState) (rootId : Nat) (tG tIG tI : String)
      (rows : List (String × List String)) (solos : List String) (N : Nat),
      1 ≤ N → N ≤ (rows.filter isGroupRow).length →
      (runMixed s0 rootId tG tIG tI rows solos (some N)).status = .cancelled ∧
      (runMixed s0 rootId tG tIG tI rows solos (some N)).state =
        (runMixed s0 rootId tG tIG tI ((rows.filter isGroupRow).take (N - 1))
          [] none).state ∧
      (runMixed s0 rootId tG tIG tI rows solos (some N)).calls =
        (runMixed s0 rootId tG tIG tI ((rows.filter isGroupRow).take (N - 1))
          [] none).calls ∧
      (runMixed s0 rootId tG tIG tI rows solos (some N)).results =
        (runMixed s0 rootId tG tIG tI ((rows.filter isGroupRow).take (N - 1))
          [] none).results) ∧
    (∀ (s0 : DriveState) (rootId : Nat) (tG tIG tI : String)
      (rows : List (String × List String)) (solos : List String) (N : Nat),
      (rows.filter isGroupRow).length < N →
      N ≤ (rows.filter isGroupRow).length + solos.length →
      (runMixed s0 rootId tG tIG tI rows solos (some N)).status = .cancelled ∧
      (runMixed s0 rootId tG tIG tI rows solos (some N)).calls =
        (runMixed s0 rootId tG tIG tI rows
          (solos.take (N - (rows.filter isGroupRow).length - 1)) none).calls ++
        (if N - (rows.filter isGroupRow).length = 1 then
          (getOrCreateSubfolder
            (runMixed s0 rootId tG tIG tI rows [] none).state rootId
            "Individuals").2.2
        else []) ∧
      (runMixed s0 rootId tG tIG tI rows solos (some N)).results =
        (runMixed s0 rootId tG tIG tI rows
          (solos.take (N - (rows.filter isGroupRow).length - 1)) none).results ++
        (if N - (rows.filter isGroupRow).length = 1 then
          [⟨.individuals_folder, none, none,
            (getOrCreateSubfolder
              (runMixed s0 rootId tG tIG tI rows [] none).state rootId
              "Individuals").1.fid, none⟩]
        else [])) := by
  refine ⟨?_, ?_, fun s0 rootId tG tIG tI rows solos N h1 h2 =>
    mixed_cancel_group_phase s0 rootId tG tIG tI rows solos N h1 h2,
    fun s0 rootId tG tIG tI rows solos N h1 h2 =>
    mixed_cancel_solo_phase s0 rootId tG tIG tI rows solos N h1 h2⟩
  · intro s0 rootId tI names N h1 h2
    obtain ⟨q1, q2, q3, q4⟩ := indivLoop_cancel_spec tI
      (getOrCreateSubfolder s0 rootId "Individuals").1.fid
      (getOrCreateSubfolder s0 rootId "Individuals").1.fid
      names.length (names.take (N - 1)).length N
      (getOrCreateSubfolder s0 rootId "Individuals").2.1 1 names
    have hne : names ≠ [] := by
      intro he
      rw [he] at h2
      simp at h2
      omega
    have hstop : (indivLoop tI
        (getOrCreateSubfolder s0 rootId "Individuals").1.fid
        (getOrCreateSubfolder s0 rootId "Individuals").1.fid
        names.length (some N)
        (getOrCreateSubfolder s0 rootId "Individuals").2.1 1 names).stopped =
        true := q4.mpr ⟨hne, by omega⟩
    refine ⟨?_, ?_, ?_, ?_⟩ <;>
      simp only [runIndividuals, hstop, if_true, q1, q2, q3]
  · intro s0 rootId tG tIG rows N h1 h2
    obtain ⟨q1, q2, q3, q4, q5, q6⟩ := groupsLoop_cancel_spec tG tIG rootId
      (rowsWork rows) (rowsWork (rows.take (N - 1))) N s0 0 1 rows
    have hne : rows ≠ [] := by
      intro he
      rw [he] at h2
      simp at h2
      omega
    have hstop : (groupsLoop tG tIG rootId (rowsWork rows) (some N) s0 0 1
        rows).stopped = true := q6.mpr ⟨hne, by omega⟩
    refine ⟨?_, ?_, ?_, ?_⟩ <;>
      simp only [runGroups, hstop, if_true, q1, q2, q3]

/-- C2, witness: groups worker on a three-row roster with the flag set
before row 2. -/
theorem C2_witness :
    1 ≤ 2 ∧
    2 ≤ ([("1", ["A", "B"]), ("2", ["C", "D"]), ("3", ["E"])] :
      List (String × List String)).length ∧
    (runGroups ⟨[], 1⟩ 0 "TG" "TIG"
      [("1", ["A", "B"]), ("2", ["C", "D"]), ("3", ["E"])] (some 2)).status =
      .cancelled ∧
    (runGroups ⟨[], 1⟩ 0 "TG" "TIG"
      [("1", ["A", "B"]), ("2", ["C", "D"]), ("3", ["E"])] (some 2)).calls =
      (runGroups ⟨[], 1⟩ 0 "TG" "TIG"
        ([("1", ["A", "B"]), ("2", ["C", "D"]), ("3", ["E"])].take 1)
        none).calls := by
  have h := (C2_cancellation_amended.2.1 ⟨[], 1⟩ 0 "TG" "TIG"
    [("1", ["A", "B"]), ("2", ["C", "D"]), ("3", ["E"])] 2 (by decide)
    (by decide))
  exact ⟨by decide, by decide, h.1, h.2.2.1⟩

/-- `Extends` is reflexive. -/
theorem Extends_refl (s : DriveState) : Extends s s :=
  ⟨⟨[], by simp⟩, Nat.le_refl _⟩

/-- `Extends` is transitive. -/
theorem Extends_trans {s1 s2 s3 : DriveState} (h1 : Extends s1 s2)
    (h2 : Extends s2 s3) : Extends s1 s3 := by
  obtain ⟨⟨e1, he1⟩, hn1⟩ := h1
  obtain ⟨⟨e2, he2⟩, hn2⟩ := h2
  exact ⟨⟨e1 ++ e2, by rw [he2, he1, List.append_assoc]⟩, Nat.le_trans hn1 hn2⟩

/-- A hit of the name lookup survives any append of files: the first match
stays the first match. -/
theorem find_mono {s s' : DriveState} {p : Nat} {n : String} {f : DriveFile}
    (h : findInFolder s p n = some f) (hx : Extends s s') :
    findInFolder s' p n = some f := by
  obtain ⟨⟨ext, hext⟩, -⟩ := hx
  unfold findInFolder at h ⊢
  rw [hext, List.filter_append]
  cases hl : s.files.filter (matchesName p n) with
  | nil => rw [hl] at h; simp at h
  | cons a t =>
      rw [hl] at h
      simp at h
      subst h
      simp

/-- Same for the folder-typed lookup of `get_or_create_subfolder`. -/
theorem findFolder_mono {s s' : DriveState} {p : Nat} {n : String}
    {f : DriveFile} (h : findFolderInFolder s p n = some f)
    (hx : Extends s s') : findFolderInFolder s' p n = some f := by
  obtain ⟨⟨ext, hext⟩, -⟩ := hx
  unfold findFolderInFolder at h ⊢
  rw [hext, List.filter_append]
  cases hl : s.files.filter (matchesFolder p n) with
  | nil => rw [hl] at h; simp at h
  | cons a t =>
      rw [hl] at h
      simp at h
      subst h
      simp

/-- An absent name is found right after the sheet copy that creates it. -/
theorem find_after_copySheet {s : DriveState} {p : Nat} {n : String}
    (h : findInFolder s p n = none) :
    findInFolder (copySheetCall s p n).2 p n = some (copySheetCall s p n).1 := by
  unfold findInFolder at h ⊢
  unfold copySheetCall
  rw [List.head?_eq_none_iff] at h
  simp only [List.filter_append, h, List.nil_append]
  simp [matchesName]

/-- An absent name is found right after the folder create that creates it. -/
theorem find_after_createFolder {s : DriveState} {p : Nat} {n : String}
    (h : findInFolder s p n = none) :
    findInFolder (createFolderCall s p n).2 p n =
      some (createFolderCall s p n).1 := by
  unfold findInFolder at h ⊢
  unfold createFolderCall
  rw [List.head?_eq_none_iff] at h
  simp only [List.filter_append, h, List.nil_append]
  simp [matchesName]

/-- A folder-typed lookup hit names an untrashed folder child. -/
theorem findFolderInFolder_eq_some {s : DriveState} {p : Nat} {n : String}
    {f : DriveFile} (h : findFolderInFolder s p n = some f) :
    f ∈ s.files ∧ f.name = n ∧ f.mimeType = FOLDER_MT ∧ f.parent = p ∧
      f.trashed = false := by
  unfold findFolderInFolder at h
  have hmem : f ∈ s.files.filter (matchesFolder p n) := by
    cases hl : s.files.filter (matchesFolder p n) with
    | nil => rw [hl] at h; simp at h
    | cons a t =>
        rw [hl] at h
        simp at h
        subst h
        exact List.mem_cons_self a t
  rw [List.mem_filter] at hmem
  obtain ⟨hin, hmatch⟩ := hmem
  simp only [matchesFolder, Bool.and_eq_true, beq_iff_eq,
    Bool.not_eq_true'] at hmatch
  exact ⟨hin, hmatch.1.1.1, hmatch.1.1.2, hmatch.1.2, hmatch.2⟩

/-- Both drive mutations extend the state. -/
theorem Extends_copySheet (s : DriveState) (p : Nat) (n : String) :
    Extends s (copySheetCall s p n).2 :=
  ⟨⟨[(copySheetCall s p n).1], rfl⟩, Nat.le_succ _⟩

/-- Folder creation extends the state. -/
theorem Extends_createFolder (s : DriveState) (p : Nat) (n : String) :
    Extends s (createFolderCall s p n).2 :=
  ⟨⟨[(createFolderCall s p n).1], rfl⟩, Nat.le_succ _⟩

/-- A clean destination satisfies the run-time invariant. -/
theorem GInv_of_CleanState {s : DriveState} {rootId : Nat}
    (h : CleanState s rootId) : GInv rootId s := by
  obtain ⟨h1, h2⟩ := h
  refine ⟨h1, fun f hf => ⟨(h2 f hf).1, (h2 f hf).2.1, (h2 f hf).2.2.1⟩, ?_⟩
  intro f hf hp _
  exact absurd hp (h2 f hf).2.2.2

/-- Creating a folder directly under the root preserves the invariant. -/
theorem GInv_createFolder_root {s : DriveState} {rootId : Nat} (n : String)
    (h : GInv rootId s) : GInv rootId (createFolderCall s rootId n).2 := by
  obtain ⟨h1, h2, h3⟩ := h
  refine ⟨by simp [createFolderCall]; omega, ?_, ?_⟩
  · intro f hf
    simp only [createFolderCall, List.mem_append, List.mem_singleton] at hf
    rcases hf with hf | hf
    · obtain ⟨a, b, c⟩ := h2 f hf
      exact ⟨by simp [createFolderCall]; omega,
        by simp [createFolderCall]; omega, c⟩
    · subst hf
      exact ⟨by simp [createFolderCall], by simp [createFolderCall]; omega,
        by simp; omega⟩
  · intro f hf hp ht
    simp only [createFolderCall, List.mem_append, List.mem_singleton] at hf
    rcases hf with hf | hf
    · exact h3 f hf hp ht
    · subst hf; rfl

/-- Copying a sheet into a non-root folder with an already-allocated id
preserves the invariant. -/
theorem GInv_copySheet {s : DriveState} {rootId p : Nat} (n : String)
    (h : GInv rootId s) (hp1 : p < s.nextId) (hp2 : p ≠ rootId) :
    GInv rootId (copySheetCall s p n).2 := by
  obtain ⟨h1, h2, h3⟩ := h
  refine ⟨by simp [copySheetCall]; omega, ?_, ?_⟩
  · intro f hf
    simp only [copySheetCall, List.mem_append, List.mem_singleton] at hf
    rcases hf with hf | hf
    · obtain ⟨a, b, c⟩ := h2 f hf
      exact ⟨by simp [copySheetCall]; omega, by simp [copySheetCall]; omega, c⟩
    · subst hf
      exact ⟨by simp [copySheetCall], by simp [copySheetCall]; omega,
        by simp; omega⟩
  · intro f hf hp ht
    simp only [copySheetCall, List.mem_append, List.mem_singleton] at hf
    rcases hf with hf | hf
    · exact h3 f hf hp ht
    · subst hf
      exact absurd hp hp2

/-- An absent folder-typed name is found right after the folder create. -/
theorem findFolder_after_createFolder {s : DriveState} {p : Nat} {n : String}
    (h : findFolderInFolder s p n = none) :
    findFolderInFolder (createFolderCall s p n).2 p n =
      some (createFolderCall s p n).1 := by
  unfold findFolderInFolder at h ⊢
  unfold createFolderCall
  rw [List.head?_eq_none_iff] at h
  simp only [List.filter_append, h, List.nil_append]
  simp [matchesFolder]

/-- Row coverage survives any extension of the store: the first matches all
stay first matches. -/
theorem CoveredRow_mono {s s' : DriveState} {rootId : Nat} {g : String}
    {members : List String} (h : CoveredRow s rootId g members)
    (hx : Extends s s') : CoveredRow s' rootId g members := by
  obtain ⟨F, h1, h2, h3, h4⟩ := h
  refine ⟨F, find_mono h1 hx, h2, ?_, ?_⟩
  · obtain ⟨x, hx1⟩ := Option.isSome_iff_exists.mp h3
    rw [find_mono hx1 hx]; rfl
  · intro m hm
    obtain ⟨x, hx1⟩ := Option.isSome_iff_exists.mp (h4 m hm)
    rw [find_mono hx1 hx]; rfl

/-- Under the run-time invariant, `_find_or_create_folder` at the root
returns a folder-typed child that the name lookup afterwards hits, with a
live non-root id, preserving the invariant and only extending the store. -/
theorem findOrCreateFolder_root_spec {s : DriveState} {rootId : Nat}
    (hg : GInv rootId s) (name : String) :
    GInv rootId (findOrCreateFolder s rootId name).2.1 ∧
    Extends s (findOrCreateFolder s rootId name).2.1 ∧
    (findOrCreateFolder s rootId name).1.mimeType = FOLDER_MT ∧
    (findOrCreateFolder s rootId name).1.fid <
      (findOrCreateFolder s rootId name).2.1.nextId ∧
    (findOrCreateFolder s rootId name).1.fid ≠ rootId ∧
    findInFolder (findOrCreateFolder s rootId name).2.1 rootId name =
      some (findOrCreateFolder s rootId name).1 := by
  cases hf : findInFolder s rootId name with
  | some f =>
      obtain ⟨hin, hname, hparent, htr⟩ := findInFolder_eq_some hf
      have hmt : f.mimeType = FOLDER_MT := hg.2.2 f hin hparent htr
      have heq : findOrCreateFolder s rootId name = (f, s, []) := by
        unfold findOrCreateFolder
        rw [hf]
        simp [hmt]
      rw [heq]
      exact ⟨hg, Extends_refl s, hmt, (hg.2.1 f hin).1, (hg.2.1 f hin).2.2, hf⟩
  | none =>
      have heq : findOrCreateFolder s rootId name =
          ((createFolderCall s rootId name).1, (createFolderCall s rootId name).2,
            [RemoteCall.createFolder rootId name]) := by
        unfold findOrCreateFolder
        rw [hf]
      rw [heq]
      refine ⟨GInv_createFolder_root name hg, Extends_createFolder s rootId name,
        rfl, ?_, ?_, find_after_createFolder hf⟩
      · simp [createFolderCall]
      · have h1 := hg.1
        simp [createFolderCall]
        omega

/-- The member loop preserves the invariant, only extends the store, and
leaves every member's contribution sheet findable in the group folder. -/
theorem memberLoop_clean (tIG : String) (fid : Nat) (g : String)
    (total rootId : Nat) (ms : List String) :
    ∀ s step, GInv rootId s → fid < s.nextId → fid ≠ rootId →
      GInv rootId (memberLoop tIG fid g total s step ms).state ∧
      Extends s (memberLoop tIG fid g total s step ms).state ∧
      ∀ m ∈ ms, (findInFolder (memberLoop tIG fid g total s step ms).state
        fid (contribSheetName m)).isSome = true := by
  induction ms with
  | nil =>
      intro s step hg _ _
      exact ⟨hg, Extends_refl s, by simp [memberLoop]⟩
  | cons m rest ih =>
      intro s step hg hlt hne
      cases hf : findInFolder s fid (contribSheetName m) with
      | none =>
          have hg1 : GInv rootId (copySheetCall s fid (contribSheetName m)).2 :=
            GInv_copySheet (contribSheetName m) hg hlt hne
          obtain ⟨i1, i2, i3⟩ := ih (copySheetCall s fid (contribSheetName m)).2
            (step + 1) hg1 (by simp [copySheetCall]; omega) hne
          have hred : (memberLoop tIG fid g total s step (m :: rest)).state =
              (memberLoop tIG fid g total
                (copySheetCall s fid (contribSheetName m)).2 (step + 1)
                rest).state := by
            simp [memberLoop, hf]
          rw [hred]
          refine ⟨i1, Extends_trans (Extends_copySheet s fid (contribSheetName m))
            i2, ?_⟩
          intro x hx
          rcases List.mem_cons.mp hx with h1 | h2
          · subst h1
            rw [find_mono (find_after_copySheet hf) i2]
            rfl
          · exact i3 x h2
      | some ex =>
          obtain ⟨i1, i2, i3⟩ := ih s (step + 1) hg hlt hne
          have hred : (memberLoop tIG fid g total s step (m :: rest)).state =
              (memberLoop tIG fid g total s (step + 1) rest).state := by
            simp [memberLoop, hf]
          rw [hred]
          refine ⟨i1, i2, ?_⟩
          intro x hx
          rcases List.mem_cons.mp hx with h1 | h2
          · subst h1
            rw [find_mono hf i2]
            rfl
          · exact i3 x h2

/-- One group row preserves the invariant, extends the store, and ends with
the row covered: the folder lookup hits a folder-typed child containing the
requirements sheet and every member sheet. -/
theorem processRow_clean (tG tIG : String) (rootId total : Nat)
    (s : DriveState) (step : Nat) (g : String) (members : List String)
    (hg : GInv rootId s) :
    GInv rootId (processRow tG tIG rootId total s step g members).state ∧
    Extends s (processRow tG tIG rootId total s step g members).state ∧
    CoveredRow (processRow tG tIG rootId total s step g members).state
      rootId g members := by
  obtain ⟨hg1, hx1, hmt, hfid, hnr, hfind⟩ :=
    findOrCreateFolder_root_spec hg (groupFolderName g)
  cases hfc : findOrCreateFolder s rootId (groupFolderName g) with
  | mk folder rest =>
      rw [hfc] at hg1 hx1 hmt hfid hnr hfind
      simp only [] at hg1 hx1 hmt hfid hnr hfind
      cases hsh : findInFolder rest.1 folder.fid (groupSheetName g) with
      | none =>
          have hred : (processRow tG tIG rootId total s step g members).state =
              (memberLoop tIG folder.fid g total
                (copySheetCall rest.1 folder.fid (groupSheetName g)).2
                (step + 2) members).state := by
            unfold processRow
            rw [hfc]
            simp [hsh]
          rw [hred]
          have hg2 : GInv rootId
              (copySheetCall rest.1 folder.fid (groupSheetName g)).2 :=
            GInv_copySheet (groupSheetName g) hg1 hfid hnr
          obtain ⟨m1, m2, m3⟩ := memberLoop_clean tIG folder.fid g total rootId
            members (copySheetCall rest.1 folder.fid (groupSheetName g)).2
            (step + 2) hg2 (by simp [copySheetCall]; omega) hnr
          have hxc : Extends rest.1
              (memberLoop tIG folder.fid g total
                (copySheetCall rest.1 folder.fid (groupSheetName g)).2
                (step + 2) members).state :=
            Extends_trans (Extends_copySheet rest.1 folder.fid (groupSheetName g))
              m2
          refine ⟨m1, Extends_trans hx1 hxc, folder, find_mono hfind hxc, hmt,
            ?_, m3⟩
          rw [find_mono (find_after_copySheet hsh) m2]
          rfl
      | some ex =>
          have hred : (processRow tG tIG rootId total s step g members).state =
              (memberLoop tIG folder.fid g total rest.1 (step + 2)
                members).state := by
            unfold processRow
            rw [hfc]
            simp [hsh]
          rw [hred]
          obtain ⟨m1, m2, m3⟩ := memberLoop_clean tIG folder.fid g total rootId
            members rest.1 (step + 2) hg1 hfid hnr
          refine ⟨m1, Extends_trans hx1 m2, folder, find_mono hfind m2, hmt,
            ?_, m3⟩
          rw [find_mono hsh m2]
          rfl

/-- An uncancelled run of the row loop preserves the invariant, extends the
store, and covers every row it processed. -/
theorem groupsLoop_clean (tG tIG : String) (rootId total : Nat)
    (rows : List (String × List String)) :
    ∀ s step i, GInv rootId s →
      GInv rootId (groupsLoop tG tIG rootId total none s step i rows).state ∧
      Extends s (groupsLoop tG tIG rootId total none s step i rows).state ∧
      ∀ r ∈ rows,
        CoveredRow (groupsLoop tG tIG rootId total none s step i rows).state
          rootId r.1 r.2 := by
  induction rows with
  | nil =>
      intro s step i hg
      exact ⟨hg, Extends_refl s, by simp [groupsLoop]⟩
  | cons row rest ih =>
      obtain ⟨g, members⟩ := row
      intro s step i hg
      obtain ⟨p1, p2, p3⟩ := processRow_clean tG tIG rootId total s step g
        members hg
      obtain ⟨l1, l2, l3⟩ := ih
        (processRow tG tIG rootId total s step g members).state
        (processRow tG tIG rootId total s step g members).step (i + 1) p1
      have hred : (groupsLoop tG tIG rootId total none s step i
          ((g, members) :: rest)).state =
          (groupsLoop tG tIG rootId total none
            (processRow tG tIG rootId total s step g members).state
            (processRow tG tIG rootId total s step g members).step (i + 1)
            rest).state := by
        simp [groupsLoop, cancelHit]
      rw [hred]
      refine ⟨l1, Extends_trans p2 l2, ?_⟩
      intro x hx
      rcases List.mem_cons.mp hx with h1 | h2
      · subst h1
        exact CoveredRow_mono p3 l2
      · exact l3 x h2

/-- When every member sheet is already findable, the member loop mutates
nothing: unchanged store, no calls, only existing-variant records. -/
theorem memberLoop_allfound (tIG : String) (fid : Nat) (g : String)
    (total : Nat) (ms : List String) :
    ∀ s step,
      (∀ m ∈ ms, (findInFolder s fid (contribSheetName m)).isSome = true) →
      (memberLoop tIG fid g total s step ms).state = s ∧
      (memberLoop tIG fid g total s step ms).calls = [] ∧
      ∀ r ∈ (memberLoop tIG fid g total s step ms).results,
        r.rtype = RType.indiv_group_sheet_existing := by
  induction ms with
  | nil =>
      intro s step _
      exact ⟨rfl, rfl, by simp [memberLoop]⟩
  | cons m rest ih =>
      intro s step hall
      obtain ⟨ex, hex⟩ := Option.isSome_iff_exists.mp
        (hall m (List.mem_cons_self m rest))
      obtain ⟨i1, i2, i3⟩ := ih s (step + 1)
        (fun x hx => hall x (List.mem_cons_of_mem m hx))
      refine ⟨?_, ?_, ?_⟩
      · simpa [memberLoop, hex] using i1
      · simpa [memberLoop, hex] using i2
      · intro r hr
        simp only [memberLoop, hex] at hr
        rcases List.mem_cons.mp hr with h1 | h2
        · subst h1
          rfl
        · exact i3 r h2

/-- A covered row is replayed without mutation: unchanged store, no calls,
and only the folder record plus existing variants. -/
theorem processRow_covered (tG tIG : String) (rootId total : Nat)
    (s : DriveState) (step : Nat) (g : String) (members : List String)
    (hc : CoveredRow s rootId g members) :
    (processRow tG tIG rootId total s step g members).state = s ∧
    (processRow tG tIG rootId total s step g members).calls = [] ∧
    ∀ r ∈ (processRow tG tIG rootId total s step g members).results,
      r.rtype = RType.folder ∨ isExistingRType r.rtype = true := by
  obtain ⟨F, hF, hmt, hsheet, hmem⟩ := hc
  have hfoc : findOrCreateFolder s rootId (groupFolderName g) = (F, s, []) := by
    unfold findOrCreateFolder
    rw [hF]
    simp [hmt]
  obtain ⟨ex, hex⟩ := Option.isSome_iff_exists.mp hsheet
  obtain ⟨m1, m2, m3⟩ := memberLoop_allfound tIG F.fid g total members s
    (step + 2) hmem
  refine ⟨?_, ?_, ?_⟩
  · unfold processRow
    rw [hfoc]
    simpa [hex] using m1
  · unfold processRow
    rw [hfoc]
    simpa [hex] using m2
  · intro r hr
    unfold processRow at hr
    rw [hfoc] at hr
    simp only [hex] at hr
    rcases List.mem_cons.mp hr with h1 | hr2
    · subst h1
      exact Or.inl rfl
    · rcases List.mem_cons.mp hr2 with h2 | hr3
      · subst h2
        exact Or.inr rfl
      · refine Or.inr ?_
        rw [m3 r hr3]
        rfl

/-- A fully covered, uncancelled run of the row loop mutates nothing. -/
theorem groupsLoop_covered (tG tIG : String) (rootId total : Nat)
    (rows : List (String × List String)) :
    ∀ s step i, (∀ r ∈ rows, CoveredRow s rootId r.1 r.2) →
      (groupsLoop tG tIG rootId total none s step i rows).state = s ∧
      (groupsLoop tG tIG rootId total none s step i rows).calls = [] ∧
      ∀ r ∈ (groupsLoop tG tIG rootId total none s step i rows).results,
        r.rtype = RType.folder ∨ isExistingRType r.rtype = true := by
  induction rows with
  | nil =>
      intro s step i _
      exact ⟨rfl, rfl, by simp [groupsLoop]⟩
  | cons row rest ih =>
      obtain ⟨g, members⟩ := row
      intro s step i hall
      obtain ⟨p1, p2, p3⟩ := processRow_covered tG tIG rootId total s step g
        members (hall (g, members) (List.mem_cons_self _ _))
      obtain ⟨l1, l2, l3⟩ := ih s
        (processRow tG tIG rootId total s step g members).step (i + 1)
        (fun r hr => hall r (List.mem_cons_of_mem _ hr))
      refine ⟨?_, ?_, ?_⟩
      · simp [groupsLoop, cancelHit, p1, l1]
      · simp [groupsLoop, cancelHit, p1, p2, l2]
      · intro r hr
        simp only [groupsLoop, cancelHit] at hr
        rw [p1] at hr
        simp only [Bool.false_eq_true, if_false] at hr
        rcases List.mem_append.mp (by simpa using hr) with h1 | h2
        · exact p3 r h1
        · exact l3 r h2

/-- A folder-typed hit makes `get_or_create_subfolder` a pure read. -/
theorem getOrCreateSubfolder_stable {s : DriveState} {p : Nat} {n : String}
    {f : DriveFile} (h : findFolderInFolder s p n = some f) :
    getOrCreateSubfolder s p n = (f, s, []) := by
  unfold getOrCreateSubfolder
  rw [h]

/-- After `get_or_create_subfolder` the folder-typed lookup hits the returned
folder, and the store only grew. -/
theorem getOrCreateSubfolder_spec (s : DriveState) (p : Nat) (n : String) :
    Extends s (getOrCreateSubfolder s p n).2.1 ∧
    findFolderInFolder (getOrCreateSubfolder s p n).2.1 p n =
      some (getOrCreateSubfolder s p n).1 := by
  cases h : findFolderInFolder s p n with
  | some f =>
      rw [getOrCreateSubfolder_stable h]
      exact ⟨Extends_refl s, h⟩
  | none =>
      have heq : getOrCreateSubfolder s p n =
          ((createFolderCall s p n).1, (createFolderCall s p n).2,
            [RemoteCall.createFolder p n]) := by
        unfold getOrCreateSubfolder
        rw [h]
      rw [heq]
      exact ⟨Extends_createFolder s p n, findFolder_after_createFolder h⟩

/-- The uncancelled individuals name loop only extends the store, and
afterwards every feedback sheet is findable in the Individuals folder. -/
theorem indivLoop_covers (tI : String) (fid link total : Nat)
    (names : List String) :
    ∀ s i,
      Extends s (indivLoop tI fid link total none s i names).state ∧
      ∀ n ∈ names,
        (findInFolder (indivLoop tI fid link total none s i names).state fid
          (feedbackSheetName n)).isSome = true := by
  induction names with
  | nil =>
      intro s i
      exact ⟨Extends_refl s, by simp [indivLoop]⟩
  | cons n rest ih =>
      intro s i
      cases hf : findInFolder s fid (feedbackSheetName n) with
      | none =>
          obtain ⟨i1, i2⟩ := ih (copySheetCall s fid (feedbackSheetName n)).2
            (i + 1)
          have hred : (indivLoop tI fid link total none s i (n :: rest)).state =
              (indivLoop tI fid link total none
                (copySheetCall s fid (feedbackSheetName n)).2 (i + 1)
                rest).state := by
            simp [indivLoop, cancelHit, hf]
          rw [hred]
          refine ⟨Extends_trans (Extends_copySheet s fid (feedbackSheetName n))
            i1, ?_⟩
          intro x hx
          rcases List.mem_cons.mp hx with h1 | h2
          · subst h1
            rw [find_mono (find_after_copySheet hf) i1]
            rfl
          · exact i2 x h2
      | some ex =>
          obtain ⟨i1, i2⟩ := ih s (i + 1)
          have hred : (indivLoop tI fid link total none s i (n :: rest)).state =
              (indivLoop tI fid link total none s (i + 1) rest).state := by
            simp [indivLoop, cancelHit, hf]
          rw [hred]
          refine ⟨i1, ?_⟩
          intro x hx
          rcases List.mem_cons.mp hx with h1 | h2
          · subst h1
            rw [find_mono hf i1]
            rfl
          · exact i2 x h2

/-- When every feedback sheet is findable, the individuals name loop mutates
nothing: unchanged store, no calls, only existing-variant records. -/
theorem indivLoop_allfound (tI : String) (fid link total : Nat)
    (names : List String) :
    ∀ s i,
      (∀ n ∈ names,
        (findInFolder s fid (feedbackSheetName n)).isSome = true) →
      (indivLoop tI fid link total none s i names).state = s ∧
      (indivLoop tI fid link total none s i names).calls = [] ∧
      ∀ r ∈ (indivLoop tI fid link total none s i names).results,
        r.rtype = RType.solo_sheet_existing := by
  induction names with
  | nil =>
      intro s i _
      exact ⟨rfl, rfl, by simp [indivLoop]⟩
  | cons n rest ih =>
      intro s i hall
      obtain ⟨ex, hex⟩ := Option.isSome_iff_exists.mp
        (hall n (List.mem_cons_self n rest))
      obtain ⟨i1, i2, i3⟩ := ih s (i + 1)
        (fun x hx => hall x (List.mem_cons_of_mem n hx))
      refine ⟨?_, ?_, ?_⟩
      · simpa [indivLoop, cancelHit, hex] using i1
      · simpa [indivLoop, cancelHit, hex] using i2
      · intro r hr
        simp only [indivLoop, cancelHit, hex] at hr
        simp only [Bool.false_eq_true, if_false] at hr
        rcases List.mem_cons.mp (by simpa using hr) with h1 | h2
        · subst h1
          rfl
        · exact i3 r h2

/-- The uncancelled solo loop only extends the store, and afterwards every
feedback sheet is findable in the Individuals folder. -/
theorem soloLoop_covers (tI : String) (fid total : Nat)
    (solos : List String) :
    ∀ s step i,
      Extends s (soloLoop tI fid total none s step i solos).state ∧
      ∀ n ∈ solos,
        (findInFolder (soloLoop tI fid total none s step i solos).state fid
          (feedbackSheetName n)).isSome = true := by
  induction solos with
  | nil =>
      intro s step i
      exact ⟨Extends_refl s, by simp [soloLoop]⟩
  | cons n rest ih =>
      intro s step i
      cases hf : findInFolder s fid (feedbackSheetName n) with
      | none =>
          obtain ⟨i1, i2⟩ := ih (copySheetCall s fid (feedbackSheetName n)).2
            (step + 1) (i + 1)
          have hred : (soloLoop tI fid total none s step i (n :: rest)).state =
              (soloLoop tI fid total none
                (copySheetCall s fid (feedbackSheetName n)).2 (step + 1)
                (i + 1) rest).state := by
            simp [soloLoop, cancelHit, hf]
          rw [hred]
          refine ⟨Extends_trans (Extends_copySheet s fid (feedbackSheetName n))
            i1, ?_⟩
          intro x hx
          rcases List.mem_cons.mp hx with h1 | h2
          · subst h1
            rw [find_mono (find_after_copySheet hf) i1]
            rfl
          · exact i2 x h2
      | some ex =>
          obtain ⟨i1, i2⟩ := ih s (step + 1) (i + 1)
          have hred : (soloLoop tI fid total none s step i (n :: rest)).state =
              (soloLoop tI fid total none s (step + 1) (i + 1) rest).state := by
            simp [soloLoop, cancelHit, hf]
          rw [hred]
          refine ⟨i1, ?_⟩
          intro x hx
          rcases List.mem_cons.mp hx with h1 | h2
          · subst h1
            rw [find_mono hf i1]
            rfl
          · exact i2 x h2

/-- When every feedback sheet is findable, the solo loop mutates nothing:
unchanged store, no calls, no stop, only existing-variant records. -/
theorem soloLoop_allfound (tI : String) (fid total : Nat)
    (solos : List String) :
    ∀ s step i,
      (∀ n ∈ solos,
        (findInFolder s fid (feedbackSheetName n)).isSome = true) →
      (soloLoop tI fid total none s step i solos).state = s ∧
      (soloLoop tI fid total none s step i solos).calls = [] ∧
      ∀ r ∈ (soloLoop tI fid total none s step i solos).results,
        r.rtype = RType.solo_sheet_existing := by
  induction solos with
  | nil =>
      intro s step i _
      exact ⟨rfl, rfl, by simp [soloLoop]⟩
  | cons n rest ih =>
      intro s step i hall
      obtain ⟨ex, hex⟩ := Option.isSome_iff_exists.mp
        (hall n (List.mem_cons_self n rest))
      obtain ⟨i1, i2, i3⟩ := ih s (step + 1) (i + 1)
        (fun x hx => hall x (List.mem_cons_of_mem n hx))
      refine ⟨?_, ?_, ?_⟩
      · simpa [soloLoop, cancelHit, hex] using i1
      · simpa [soloLoop, cancelHit, hex] using i2
      · intro r hr
        simp only [soloLoop, cancelHit, hex] at hr
        simp only [Bool.false_eq_true, if_false] at hr
        rcases List.mem_cons.mp (by simpa using hr) with h1 | h2
        · subst h1
          rfl
        · exact i3 r h2

/-- A second individuals run issues no calls and appends only
existing-variant records, over any starting store. -/
theorem runIndividuals_second (s0 : DriveState) (rootId : Nat) (tI : String)
    (names : List String) :
    (runIndividuals (runIndividuals s0 rootId tI names none).state rootId tI
      names none).calls = [] ∧
    ∀ r ∈ (runIndividuals (runIndividuals s0 rootId tI names none).state
      rootId tI names none).results, r.rtype = RType.solo_sheet_existing := by
  obtain ⟨hx0, hff⟩ := getOrCreateSubfolder_spec s0 rootId "Individuals"
  obtain ⟨hx1, hcov⟩ := indivLoop_covers tI
    (getOrCreateSubfolder s0 rootId "Individuals").1.fid
    (getOrCreateSubfolder s0 rootId "Individuals").1.fid names.length names
    (getOrCreateSubfolder s0 rootId "Individuals").2.1 1
  have hst1 : (runIndividuals s0 rootId tI names none).state =
      (indivLoop tI (getOrCreateSubfolder s0 rootId "Individuals").1.fid
        (getOrCreateSubfolder s0 rootId "Individuals").1.fid names.length none
        (getOrCreateSubfolder s0 rootId "Individuals").2.1 1 names).state := rfl
  have hstab : getOrCreateSubfolder
      (runIndividuals s0 rootId tI names none).state rootId "Individuals" =
      ((getOrCreateSubfolder s0 rootId "Individuals").1,
        (runIndividuals s0 rootId tI names none).state, []) := by
    apply getOrCreateSubfolder_stable
    rw [hst1]
    exact findFolder_mono hff hx1
  obtain ⟨a1, a2, a3⟩ := indivLoop_allfound tI
    (getOrCreateSubfolder s0 rootId "Individuals").1.fid
    (getOrCreateSubfolder s0 rootId "Individuals").1.fid names.length names
    (runIndividuals s0 rootId tI names none).state 1
    (by rw [hst1]; exact hcov)
  constructor
  · have hcalls : (runIndividuals (runIndividuals s0 rootId tI names
        none).state rootId tI names none).calls =
        (getOrCreateSubfolder (runIndividuals s0 rootId tI names none).state
          rootId "Individuals").2.2 ++
        (indivLoop tI
          (getOrCreateSubfolder (runIndividuals s0 rootId tI names none).state
            rootId "Individuals").1.fid
          (getOrCreateSubfolder (runIndividuals s0 rootId tI names none).state
            rootId "Individuals").1.fid names.length none
          (getOrCreateSubfolder (runIndividuals s0 rootId tI names none).state
            rootId "Individuals").2.1 1 names).calls := rfl
    rw [hcalls, hstab]
    simpa using a2
  · intro r hr
    have hres : (runIndividuals (runIndividuals s0 rootId tI names
        none).state rootId tI names none).results =
        (indivLoop tI
          (getOrCreateSubfolder (runIndividuals s0 rootId tI names none).state
            rootId "Individuals").1.fid
          (getOrCreateSubfolder (runIndividuals s0 rootId tI names none).state
            rootId "Individuals").1.fid names.length none
          (getOrCreateSubfolder (runIndividuals s0 rootId tI names none).state
            rootId "Individuals").2.1 1 names).results := rfl
    rw [hres, hstab] at hr
    simp only [] at hr
    exact a3 r hr

/-- A second groups run over a store satisfying the run-time invariant
issues no calls and appends only folder records and existing variants. -/
theorem runGroups_second (s0 : DriveState) (rootId : Nat) (tG tIG : String)
    (rows : List (String × List String)) (hg : GInv rootId s0) :
    (runGroups (runGroups s0 rootId tG tIG rows none).state rootId tG tIG
      rows none).calls = [] ∧
    ∀ r ∈ (runGroups (runGroups s0 rootId tG tIG rows none).state rootId tG
      tIG rows none).results,
      r.rtype = RType.folder ∨ isExistingRType r.rtype = true := by
  obtain ⟨g1, g2, g3⟩ := groupsLoop_clean tG tIG rootId (rowsWork rows) rows
    s0 0 1 hg
  have hst1 : (runGroups s0 rootId tG tIG rows none).state =
      (groupsLoop tG tIG rootId (rowsWork rows) none s0 0 1 rows).state := rfl
  obtain ⟨c1, c2, c3⟩ := groupsLoop_covered tG tIG rootId (rowsWork rows) rows
    (runGroups s0 rootId tG tIG rows none).state 0 1
    (by rw [hst1]; exact g3)
  exact ⟨c2, c3⟩

/-- A second mixed run over a store satisfying the run-time invariant issues
no calls and appends only folder and individuals_folder records and existing
variants. -/
theorem runMixed_second (s0 : DriveState) (rootId : Nat) (tG tIG tI : String)
    (rows : List (String × List String)) (solos : List String)
    (hg : GInv rootId s0) :
    (runMixed (runMixed s0 rootId tG tIG tI rows solos none).state rootId tG
      tIG tI rows solos none).calls = [] ∧
    ∀ r ∈ (runMixed (runMixed s0 rootId tG tIG tI rows solos none).state
      rootId tG tIG tI rows solos none).results,
      r.rtype = RType.folder ∨ r.rtype = RType.individuals_folder ∨
        isExistingRType r.rtype = true := by
  obtain ⟨g1, g2, g3⟩ := groupsLoop_clean tG tIG rootId (mixedTotal rows solos)
    (rows.filter isGroupRow) s0 0 1 hg
  obtain ⟨hstop1, -, -⟩ := groupsLoop_none_spec tG tIG rootId
    (mixedTotal rows solos) s0 0 1 (rows.filter isGroupRow)
  generalize hgen : (runMixed s0 rootId tG tIG tI rows solos none).state = t
  cases hemp : solos.isEmpty with
  | true =>
      have hst1t : t = (groupsLoop tG tIG rootId (mixedTotal rows solos) none
          s0 0 1 (rows.filter isGroupRow)).state := by
        rw [← hgen]
        unfold runMixed
        simp [mixedGroupsLoop_eq_filter, hstop1, hemp]
      have hcovF : ∀ r ∈ rows.filter isGroupRow, CoveredRow t rootId r.1 r.2 :=
        fun r hr => by rw [hst1t]; exact g3 r hr
      obtain ⟨c1, c2, c3⟩ := groupsLoop_covered tG tIG rootId
        (mixedTotal rows solos) (rows.filter isGroupRow) t 0 1 hcovF
      obtain ⟨hstop2, -, -⟩ := groupsLoop_none_spec tG tIG rootId
        (mixedTotal rows solos) t 0 1 (rows.filter isGroupRow)
      unfold runMixed
      simp only [mixedGroupsLoop_eq_filter, hstop2, hemp, Bool.false_eq_true,
        if_false, eq_self_iff_true, if_true]
      refine ⟨c2, fun r hr => ?_⟩
      rcases c3 r hr with h | h
      · exact Or.inl h
      · exact Or.inr (Or.inr h)
  | false =>
      have hst1t : t = (soloLoop tI
          (getOrCreateSubfolder (groupsLoop tG tIG rootId
            (mixedTotal rows solos) none s0 0 1
            (rows.filter isGroupRow)).state rootId "Individuals").1.fid
          (mixedTotal rows solos) none
          (getOrCreateSubfolder (groupsLoop tG tIG rootId
            (mixedTotal rows solos) none s0 0 1
            (rows.filter isGroupRow)).state rootId "Individuals").2.1
          (groupsLoop tG tIG rootId (mixedTotal rows solos) none s0 0 1
            (rows.filter isGroupRow)).step
          (groupsLoop tG tIG rootId (mixedTotal rows solos) none s0 0 1
            (rows.filter isGroupRow)).next solos).state := by
        rw [← hgen]
        unfold runMixed
        simp [mixedGroupsLoop_eq_filter, hstop1, hemp]
      obtain ⟨gx, gff⟩ := getOrCreateSubfolder_spec
        (groupsLoop tG tIG rootId (mixedTotal rows solos) none s0 0 1
          (rows.filter isGroupRow)).state rootId "Individuals"
      obtain ⟨sx, scov⟩ := soloLoop_covers tI
        (getOrCreateSubfolder (groupsLoop tG tIG rootId
          (mixedTotal rows solos) none s0 0 1
          (rows.filter isGroupRow)).state rootId "Individuals").1.fid
        (mixedTotal rows solos) solos
        (getOrCreateSubfolder (groupsLoop tG tIG rootId
          (mixedTotal rows solos) none s0 0 1
          (rows.filter isGroupRow)).state rootId "Individuals").2.1
        (groupsLoop tG tIG rootId (mixedTotal rows solos) none s0 0 1
          (rows.filter isGroupRow)).step
        (groupsLoop tG tIG rootId (mixedTotal rows solos) none s0 0 1
          (rows.filter isGroupRow)).next
      have hxAll : Extends (groupsLoop tG tIG rootId (mixedTotal rows solos)
          none s0 0 1 (rows.filter isGroupRow)).state t := by
        rw [hst1t]
        exact Extends_trans gx sx
      have hcovF : ∀ r ∈ rows.filter isGroupRow, CoveredRow t rootId r.1 r.2 :=
        fun r hr => CoveredRow_mono (g3 r hr) hxAll
      have hff2 : findFolderInFolder t rootId "Individuals" =
          some (getOrCreateSubfolder (groupsLoop tG tIG rootId
            (mixedTotal rows solos) none s0 0 1
            (rows.filter isGroupRow)).state rootId "Individuals").1 := by
        rw [hst1t]
        exact findFolder_mono gff sx
      have hscov2 : ∀ n ∈ solos, (findInFolder t
          (getOrCreateSubfolder (groupsLoop tG tIG rootId
            (mixedTotal rows solos) none s0 0 1
            (rows.filter isGroupRow)).state rootId "Individuals").1.fid
          (feedbackSheetName n)).isSome = true := by
        rw [hst1t]
        exact scov
      obtain ⟨c1, c2, c3⟩ := groupsLoop_covered tG tIG rootId
        (mixedTotal rows solos) (rows.filter isGroupRow) t 0 1 hcovF
      obtain ⟨hstop2, -, -⟩ := groupsLoop_none_spec tG tIG rootId
        (mixedTotal rows solos) t 0 1 (rows.filter isGroupRow)
      have hstab : getOrCreateSubfolder t rootId "Individuals" =
          ((getOrCreateSubfolder (groupsLoop tG tIG rootId
            (mixedTotal rows solos) none s0 0 1
            (rows.filter isGroupRow)).state rootId "Individuals").1, t, []) :=
        getOrCreateSubfolder_stable hff2
      obtain ⟨a1, a2, a3⟩ := soloLoop_allfound tI
        (getOrCreateSubfolder (groupsLoop tG tIG rootId
          (mixedTotal rows solos) none s0 0 1
          (rows.filter isGroupRow)).state rootId "Individuals").1.fid
        (mixedTotal rows solos) solos t
        (groupsLoop tG tIG rootId (mixedTotal rows solos) none t 0 1
          (rows.filter isGroupRow)).step
        (groupsLoop tG tIG rootId (mixedTotal rows solos) none t 0 1
          (rows.filter isGroupRow)).next hscov2
      unfold runMixed
      simp only [mixedGroupsLoop_eq_filter, hstop2, hemp, Bool.false_eq_true,
        if_false, c1, hstab]
      constructor
      · simp [c2, a2]
      · intro r hr
        rcases List.mem_append.mp hr with h1 | h1
        · rcases c3 r h1 with h2 | h2
          · exact Or.inl h2
          · exact Or.inr (Or.inr h2)
        · rcases List.mem_cons.mp h1 with h2 | h2
          · subst h2
            exact Or.inr (Or.inl rfl)
          · exact Or.inr (Or.inr (by rw [a3 r h2]; rfl))

/-- C1, counterexample: against a destination that already holds a
spreadsheet-typed child named "Group 1" - exactly the first name match the
reconciler trusts - the second groups run re-creates the folder and every
sheet: its artifact-creating calls are nonempty and its records are not all
existing variants, refuting the claim as stated for arbitrary stores. -/
theorem C1_counterexample :
    (runGroups (runGroups ⟨[⟨1, "Group 1", SHEET_MT, 0, false⟩], 2⟩ 0 "TG"
      "TIG" [("1", ["A", "B"])] none).state 0 "TG" "TIG"
      [("1", ["A", "B"])] none).calls ≠ [] ∧
    ((runGroups (runGroups ⟨[⟨1, "Group 1", SHEET_MT, 0, false⟩], 2⟩ 0 "TG"
      "TIG" [("1", ["A", "B"])] none).state 0 "TG" "TIG"
      [("1", ["A", "B"])] none).results.all
      fun r => isExistingRType r.rtype) = false := by
  decide

/-- C1 (amended): with no intervening external changes and a destination
folder that starts clean (fresh ids, no pre-existing children), a second
uncancelled run of any batch worker issues zero artifact-creating remote
calls (no createFolder, no copy).  Every second-run record of the
individuals worker is the existing variant, exactly as claimed; the groups
worker additionally re-appends its non-existing `folder` records, and the
mixed worker also its `individuals_folder` record, amending the claim's
"every record is an existing variant" for those two workers.  Without the
cleanliness hypothesis the claim fails outright (see the counterexample). -/
theorem C1_idempotence_amended (s0 : DriveState) (rootId : Nat)
    (tG tIG tI : String) (rows : List (String × List String))
    (names : List String) (hclean : CleanState s0 rootId) :
    ((runIndividuals (runIndividuals s0 rootId tI names none).state rootId tI
        names none).calls = [] ∧
      ∀ r ∈ (runIndividuals (runIndividuals s0 rootId tI names none).state
        rootId tI names none).results, r.rtype = RType.solo_sheet_existing) ∧
    ((runGroups (runGroups s0 rootId tG tIG rows none).state rootId tG tIG
        rows none).calls = [] ∧
      ∀ r ∈ (runGroups (runGroups s0 rootId tG tIG rows none).state rootId tG
        tIG rows none).results,
        r.rtype = RType.folder ∨ isExistingRType r.rtype = true) ∧
    ((runMixed (runMixed s0 rootId tG tIG tI rows (soloNamesOf rows)
        none).state rootId tG tIG tI rows (soloNamesOf rows) none).calls =
          [] ∧
      ∀ r ∈ (runMixed (runMixed s0 rootId tG tIG tI rows (soloNamesOf rows)
        none).state rootId tG tIG tI rows (soloNamesOf rows) none).results,
        r.rtype = RType.folder ∨ r.rtype = RType.individuals_folder ∨
          isExistingRType r.rtype = true) :=
  ⟨runIndividuals_second s0 rootId tI names,
   runGroups_second s0 rootId tG tIG rows (GInv_of_CleanState hclean),
   runMixed_second s0 rootId tG tIG tI rows (soloNamesOf rows)
     (GInv_of_CleanState hclean)⟩

/-- C1, witness: the amended idempotence theorem applied to a concrete clean
destination and the roster of the specification example. -/
theorem C1_witness :
    CleanState ⟨[], 1⟩ 0 ∧
    (((runIndividuals (runIndividuals ⟨[], 1⟩ 0 "TI" ["A", "B"] none).state 0
        "TI" ["A", "B"] none).calls = [] ∧
      ∀ r ∈ (runIndividuals (runIndividuals ⟨[], 1⟩ 0 "TI" ["A", "B"]
        none).state 0 "TI" ["A", "B"] none).results,
        r.rtype = RType.solo_sheet_existing) ∧
    ((runGroups (runGroups ⟨[], 1⟩ 0 "TG" "TIG" [("1", ["A", "B"]),
        ("2", ["C"])] none).state 0 "TG" "TIG" [("1", ["A", "B"]),
        ("2", ["C"])] none).calls = [] ∧
      ∀ r ∈ (runGroups (runGroups ⟨[], 1⟩ 0 "TG" "TIG" [("1", ["A", "B"]),
        ("2", ["C"])] none).state 0 "TG" "TIG" [("1", ["A", "B"]),
        ("2", ["C"])] none).results,
        r.rtype = RType.folder ∨ isExistingRType r.rtype = true) ∧
    ((runMixed (runMixed ⟨[], 1⟩ 0 "TG" "TIG" "TI" [("1", ["A", "B"]),
        ("2", ["C"])] (soloNamesOf [("1", ["A", "B"]), ("2", ["C"])])
        none).state 0 "TG" "TIG" "TI" [("1", ["A", "B"]), ("2", ["C"])]
        (soloNamesOf [("1", ["A", "B"]), ("2", ["C"])]) none).calls = [] ∧
      ∀ r ∈ (runMixed (runMixed ⟨[], 1⟩ 0 "TG" "TIG" "TI"
        [("1", ["A", "B"]), ("2", ["C"])] (soloNamesOf [("1", ["A", "B"]),
        ("2", ["C"])]) none).state 0 "TG" "TIG" "TI" [("1", ["A", "B"]),
        ("2", ["C"])] (soloNamesOf [("1", ["A", "B"]), ("2", ["C"])])
        none).results,
        r.rtype = RType.folder ∨ r.rtype = RType.individuals_folder ∨
          isExistingRType r.rtype = true)) :=
  ⟨by unfold CleanState; decide,
   C1_idempotence_amended ⟨[], 1⟩ 0 "TG" "TIG" "TI"
     [("1", ["A", "B"]), ("2", ["C"])] ["A", "B"]
     (by unfold CleanState; decide)⟩

end GAFeedback
